import Mathlib

/-!
# Verification of the freshness-marker / hook-lifecycle tooling

Shallow embedding of the Python scripts under `scripts/`:
`context_audit.py`, `context_bootstrap.py`, `context_update_hash.py`,
`context_check_watches.py`, `install_hooks.py`.

External subprocess calls (`git ls-files`, `git hash-object --stdin`, …) are
modelled as explicit inputs: `Option` values whose `none` stands for a
`subprocess.CalledProcessError`, and the content hash as an oracle function
`String → Option String` standing for `git hash-object --stdin`.

All definitions are executable and structurally recursive so that concrete
inputs evaluate by `decide` / `rfl`.
-/

namespace Ctx

/-! ## Python string primitives

Python `str.strip`, `str.splitlines`, `in` (substring), `str.startswith`,
`str.endswith`, and the character classes used by `re`'s `\s` are modelled
on `List Char`.  `pyIsSpace` is the set accepted by `str.isspace` (and by
`\s` in a `str` regex); `pyIsLineBreak` is the set of line boundaries used
by `str.splitlines`. -/

def pyIsSpace (c : Char) : Bool :=
  c == ' ' || c == '\t' || c == '\n' || c == '\r' ||
  c == '\x0b' || c == '\x0c' ||
  c == '\x1c' || c == '\x1d' || c == '\x1e' || c == '\x1f' ||
  c == '\u0085' || c == '\u00a0' || c == '\u1680' ||
  ('\u2000' ≤ c && c ≤ '\u200a') ||
  c == '\u2028' || c == '\u2029' || c == '\u202f' || c == '\u205f' || c == '\u3000'

def pyIsLineBreak (c : Char) : Bool :=
  c == '\n' || c == '\r' || c == '\x0b' || c == '\x0c' ||
  c == '\x1c' || c == '\x1d' || c == '\x1e' ||
  c == '\u0085' || c == '\u2028' || c == '\u2029' 

/-- Python `str.strip()` on a char list: drop `pyIsSpace` chars at both ends. -/
def pyStripL (l : List Char) : List Char :=
  ((l.dropWhile pyIsSpace).reverse.dropWhile pyIsSpace).reverse

/-- Python `str.rstrip(";")` used by `install_hooks._is_ours`. -/
def pyRstripSemi (l : List Char) : List Char :=
  (l.reverse.dropWhile (· == ';')).reverse

/-- Python `str.splitlines()`: split at `pyIsLineBreak` characters, treating
`"\r\n"` as a single boundary; a trailing boundary produces no empty line. -/
def pySplitlinesAux (cur : List Char) : List Char → List (List Char)
  | [] => if cur.isEmpty then [] else [cur.reverse]
  | c :: rest =>
    if c == '\r' then
      match rest with
      | '\n' :: rest2 => cur.reverse :: pySplitlinesAux [] rest2
      | [] => [cur.reverse]
      | c2 :: rest2 => cur.reverse :: pySplitlinesAux [] (c2 :: rest2)
    else if pyIsLineBreak c then cur.reverse :: pySplitlinesAux [] rest
    else pySplitlinesAux (c :: cur) rest

def pySplitlinesL (l : List Char) : List (List Char) :=
  pySplitlinesAux [] l

def pySplitlines (s : String) : List String :=
  (pySplitlinesL s.toList).map (fun l => String.mk l)

def pyStrip (s : String) : String :=
  String.mk (pyStripL s.toList)

/-- Python `needle in hay` (substring containment) on char lists. -/
def isInfixL (needle : List Char) : List Char → Bool
  | [] => needle.isEmpty
  | c :: rest => needle.isPrefixOf (c :: rest) || isInfixL needle rest

/-- Python `hay.__contains__(needle)` on strings. -/
def strContains (hay needle : String) : Bool :=
  isInfixL needle.toList hay.toList

/-- Python `s.startswith(p)` on strings. -/
def strStartsWith (s p : String) : Bool :=
  p.toList.isPrefixOf s.toList

/-- Python `s.endswith(c)` for a single-char suffix (used as `endswith("\n")`). -/
def strEndsWithNL (s : String) : Bool :=
  match s.toList.getLast? with
  | some c => c == '\n'
  | none => false

/-- Python slicing `s[:n]` (by code points). -/
def strTake (s : String) (n : Nat) : String :=
  String.mk (s.toList.take n)

/-- Python `"\n".join(lines)`. -/
def joinNL : List String → String
  | [] => ""
  | [l] => l
  | l :: ls => l ++ "\n" ++ joinNL ls

/-! ## Glob Matcher (`fnmatch.fnmatch`)

`fnmatch.fnmatch(name, pat)` on POSIX (where `os.path.normcase` is the
identity): `*` matches any run of characters, `?` any single character,
`[...]` a character class (leading `!` negates, a first `]` is literal, `a-b`
is a code-point range; with no closing `]` the `[` is literal), and the whole
name must be consumed.  Defined with explicit fuel so that the function is
structurally recursive; `pat.length + name.length + 1` steps always suffice
because every recursive call shrinks that sum. -/

def findClassClose (acc : List Char) : List Char → Option (List Char × List Char)
  | [] => none
  | ']' :: rest => some (acc.reverse, rest)
  | c :: rest => findClassClose (c :: acc) rest

def parseBracket (ps : List Char) : Option (Bool × List Char × List Char) :=
  match ps with
  | '!' :: ps1 =>
    (match ps1 with
     | ']' :: rest => (findClassClose [']'] rest).map (fun p => (true, p.1, p.2))
     | _ => (findClassClose [] ps1).map (fun p => (true, p.1, p.2)))
  | _ =>
    (match ps with
     | ']' :: rest => (findClassClose [']'] rest).map (fun p => (false, p.1, p.2))
     | _ => (findClassClose [] ps).map (fun p => (false, p.1, p.2)))

def classMatch : List Char → Char → Bool
  | [], _ => false
  | x :: '-' :: y :: rest, c => (x ≤ c && c ≤ y) || classMatch rest c
  | x :: rest, c => x == c || classMatch rest c

def globMatchFuel : Nat → List Char → List Char → Bool
  | 0, _, _ => false
  | _ + 1, [], n => n.isEmpty
  | fuel + 1, '*' :: ps, n =>
    globMatchFuel fuel ps n ||
      (match n with
       | [] => false
       | _ :: ns => globMatchFuel fuel ('*' :: ps) ns)
  | fuel + 1, '?' :: ps, n =>
    (match n with
     | [] => false
     | _ :: ns => globMatchFuel fuel ps ns)
  | fuel + 1, '[' :: ps, n =>
    (match parseBracket ps with
     | none =>
       (match n with
        | [] => false
        | c :: ns => c == '[' && globMatchFuel fuel ps ns)
     | some (neg, body, rest) =>
       (match n with
        | [] => false
        | c :: ns => (neg != classMatch body c) && globMatchFuel fuel rest ns))
  | fuel + 1, p :: ps, n =>
    (match n with
     | [] => false
     | c :: ns => p == c && globMatchFuel fuel ps ns)

/-- `fnmatch.fnmatch(name, pattern)`. -/
def fnmatch (name pattern : String) : Bool :=
  globMatchFuel (pattern.toList.length + name.toList.length + 1)
    pattern.toList name.toList

/-! ## Hash Engine (`compute_hash` in the three tools)

`lsStdout` models the stdout of `git ls-files` (`none` stands for a
`subprocess.CalledProcessError`); `hashObject` models
`git hash-object --stdin` run on the piped blob (`none` = error).  Python's
`set()` of matched paths followed by `sorted(...)` is modelled by `dedup`
followed by insertion sort in the code-point order on strings, which is
Python's string order. -/

def sortStrings (l : List String) : List String :=
  l.insertionSort (· ≤ ·)

/-- The `all_files = result.stdout.strip().splitlines()` step. -/
def lsFilesOf (lsStdout : String) : List String :=
  pySplitlines (pyStrip lsStdout)

/-- The matched set: every tracked path is tested against the watch globs in
order and joins the set on first match (`for ... if fnmatch: add; break`). -/
def matchedFiles (allFiles : List String) (watchGlobs : List String) : List String :=
  (allFiles.filter (fun f => watchGlobs.any (fun g => fnmatch f g))).dedup

/-- The joined blob `"\n".join(sorted(matched)) + "\n"`. -/
def sortedBlob (matched : List String) : String :=
  joinNL (sortStrings matched) ++ "\n"

/-- `compute_hash` of `context_audit.py` (lines 99-138).  A
`CalledProcessError` from `git ls-files` or `git hash-object` yields
`"ERROR"`; an empty matched set yields `"0000000"`; otherwise the first 7
characters of the stripped digest.  (A `FileNotFoundError` — `git` absent —
is not caught there and would propagate; it is outside this model.) -/
def compute_hash (lsStdout : Option String) (hashObject : String → Option String)
    (watchGlobs : List String) : String :=
  match lsStdout with
  | none => "ERROR"
  | some out =>
    let matched := matchedFiles (lsFilesOf out) watchGlobs
    if matched.isEmpty then "0000000"
    else
      match hashObject (sortedBlob matched) with
      | none => "ERROR"
      | some h => strTake (pyStrip h) 7

/-- `compute_hash` of `context_bootstrap.py` (lines 43-74): identical except
that both failure branches return `"0000000"`, not `"ERROR"`. -/
def compute_hash_bootstrap (lsStdout : Option String)
    (hashObject : String → Option String) (watchGlobs : List String) : String :=
  match lsStdout with
  | none => "0000000"
  | some out =>
    let matched := matchedFiles (lsFilesOf out) watchGlobs
    if matched.isEmpty then "0000000"
    else
      match hashObject (sortedBlob matched) with
      | none => "0000000"
      | some h => strTake (pyStrip h) 7

/-- `compute_hash` of `context_update_hash.py` (lines 56-89): both failure
branches print an error and `sys.exit(1)`, modelled as `none`. -/
def compute_hash_update (lsStdout : Option String)
    (hashObject : String → Option String) (watchGlobs : List String) :
    Option String :=
  match lsStdout with
  | none => none
  | some out =>
    let matched := matchedFiles (lsFilesOf out) watchGlobs
    if matched.isEmpty then some "0000000"
    else
      match hashObject (sortedBlob matched) with
      | none => none
      | some h => some (strTake (pyStrip h) 7)

/-! ## Marker Codec: the `FRESHNESS_PATTERN` regex

All three reader tools use `re.search` with the pattern
`<!--\s*freshness\s*\n(.*?)\n\s*-->` under `re.DOTALL` (the update tool's
variant only adds capture groups around the delimiters, which does not change
what is matched).  `re.search` semantics for this particular pattern are
deterministic: at the leftmost feasible start, each `\s*` before a non-space
literal must consume the maximal whitespace run, `\s*\n` consumes the maximal
whitespace run up to and including its last `'\n'`, and the lazy `(.*?)`
stops at the first `'\n'` that is followed by whitespace and `-->`. -/

/-- Strip a literal prefix, returning the remainder. -/
def dropLit? (lit : List Char) (s : List Char) : Option (List Char) :=
  match lit, s with
  | [], s => some s
  | _ :: _, [] => none
  | a :: l, c :: cs => if a == c then dropLit? l cs else none

/-- All ways to split the whitespace run `run` as `consumed ++ remainder`
with `consumed` ending in `'\n'`, in INCREASING order of `consumed`.  These
are the split points the greedy `\s*` of `\s*\n` can backtrack through; the
engine tries them in decreasing order (see `nlSplitsDesc`). -/
def nlSplitsAsc : List Char → List (List Char × List Char)
  | [] => []
  | c :: cs =>
    let tails := (nlSplitsAsc cs).map (fun p => (c :: p.1, p.2))
    if c == '\n' then ([c], cs) :: tails else tails

def nlSplitsDesc (run : List Char) : List (List Char × List Char) :=
  (nlSplitsAsc run).reverse

/-- Try alternatives in order, returning the first success. -/
def firstSome (f : α → Option β) : List α → Option β
  | [] => none
  | a :: as =>
    match f a with
    | some b => some b
    | none => firstSome f as

/-- Does `s` begin with `\s*-->` (the closer after the body's final `'\n'`)? -/
def closesHere (s : List Char) : Bool :=
  "-->".toList.isPrefixOf (s.dropWhile pyIsSpace)

/-- The lazy `(.*?)\n\s*-->` step: find the shortest `body` such that
`s = body ++ '\n' :: v` with `closesHere v`; returns `(body, '\n' :: v)`. -/
def scanClose (acc : List Char) : List Char → Option (List Char × List Char)
  | [] => none
  | c :: cs =>
    if c == '\n' && closesHere cs then some (acc.reverse, c :: cs)
    else scanClose (c :: acc) cs

/-- One attempt of the freshness pattern anchored at the head of `s`.
On success returns `(opener, body, closerAndRest)` with
`s = opener ++ body ++ closerAndRest`. -/
def tryMatchHere (s : List Char) : Option (List Char × List Char × List Char) :=
  match dropLit? "<!--".toList s with
  | none => none
  | some s1 =>
    let w1 := s1.takeWhile pyIsSpace
    match dropLit? "freshness".toList (s1.dropWhile pyIsSpace) with
    | none => none
    | some s2 =>
      let run := s2.takeWhile pyIsSpace
      firstSome
        (fun p =>
          match scanClose [] (p.2 ++ s2.dropWhile pyIsSpace) with
          | none => none
          | some (body, rest) =>
            some ("<!--".toList ++ w1 ++ "freshness".toList ++ p.1,
                  body, rest))
        (nlSplitsDesc run)

/-- `re.search(FRESHNESS_PATTERN, s)`: try every start position left to
right.  On success returns `(pre, body, rest)` with `s = pre ++ body ++ rest`,
where `pre` ends with the matched opener and `rest` starts with the matched
closer. -/
def findMarkerSplit : List Char → Option (List Char × List Char × List Char)
  | [] => none
  | c :: cs =>
    match tryMatchHere (c :: cs) with
    | some r => some r
    | none =>
      match findMarkerSplit cs with
      | some (p, b, r) => some (c :: p, b, r)
      | none => none

/-- `has_freshness_marker` of `context_bootstrap.py` (lines 77-79). -/
def has_freshness_marker (content : String) : Bool :=
  (findMarkerSplit content.toList).isSome

/-- `re.search(r"<label>\s*(\S+)", block)`: leftmost occurrence of the
literal label that is followed (after `\s*`) by a non-empty `\S+` token;
returns that token. -/
def searchTokenAfter (lit : List Char) : List Char → Option (List Char)
  | [] => none
  | c :: cs =>
    match dropLit? lit (c :: cs) with
    | some after =>
      let tok := (after.dropWhile pyIsSpace).takeWhile (fun x => !pyIsSpace x)
      if tok.isEmpty then searchTokenAfter lit cs else some tok
    | none => searchTokenAfter lit cs

/-- The `watches:` list scan shared by the tools (`context_audit.py`
lines 82-94 keeps scanning after the run ends; the `break` variants in the
other tools agree on every input whose block contains a single `watches:`
label, and the difference is irrelevant once the run has been collected).
This is the audit variant: `inw` is the `in_watches` flag. -/
def parseWatchesLines (inw : Bool) : List (List Char) → List (List Char)
  | [] => []
  | l :: ls =>
    let s := pyStripL l
    if "watches:".toList.isPrefixOf s then parseWatchesLines true ls
    else if inw then
      if "- ".toList.isPrefixOf s then
        pyStripL (s.drop 2) :: parseWatchesLines true ls
      else if !s.isEmpty && !("-".toList.isPrefixOf s) then
        parseWatchesLines false ls
      else parseWatchesLines true ls
    else parseWatchesLines false ls

/-- `parse_watches` of `context_update_hash.py` (lines 39-53) — the `break`
variant: once inside the run, the first non-blank non-dash line stops the
whole scan. -/
def parseWatchesLinesBreak (inw : Bool) : List (List Char) → List (List Char)
  | [] => []
  | l :: ls =>
    let s := pyStripL l
    if "watches:".toList.isPrefixOf s then parseWatchesLinesBreak true ls
    else if inw then
      if "- ".toList.isPrefixOf s then
        pyStripL (s.drop 2) :: parseWatchesLinesBreak true ls
      else if !s.isEmpty && !("-".toList.isPrefixOf s) then []
      else parseWatchesLinesBreak true ls
    else parseWatchesLinesBreak false ls

/-- The parsed freshness marker (`data` dict of `parse_freshness_marker`). -/
structure FreshnessMarker where
  watches_hash : String
  last_verified : Option String
  watches : List String
deriving DecidableEq, Repr

/-- `parse_freshness_marker` of `context_audit.py` (lines 61-96): locate the
delimited block, extract the two labelled tokens and the `watches` run; the
result is `None` exactly when the block is absent or `watches_hash` is
missing (an empty `watches` list does NOT make the result `None`). -/
def parse_freshness_marker (content : String) : Option FreshnessMarker :=
  match findMarkerSplit content.toList with
  | none => none
  | some (_, body, _) =>
    match searchTokenAfter "watches_hash:".toList body with
    | none => none
    | some h =>
      let dateTok := (searchTokenAfter "last_verified:".toList body).map
        (fun l => String.mk l)
      let watches := (parseWatchesLines false (pySplitlinesL body)).map
        (fun l => String.mk l)
      some ⟨String.mk h, dateTok, watches⟩

/-- `build_marker` of `context_bootstrap.py` (lines 82-93); `today` stands
for `date.today().isoformat()`. -/
def build_marker (watchesHash : String) (today : String)
    (watchGlobs : List String) : String :=
  "\n<!-- freshness\n" ++
  "watches_hash: " ++ watchesHash ++ "\n" ++
  "last_verified: " ++ today ++ "\n" ++
  "watches:\n" ++
  joinNL (watchGlobs.map (fun g => "  - " ++ g)) ++
  "\n-->\n"

/-- `add_marker` of `context_bootstrap.py` (lines 96-116) as a content
transformer: if a marker is already present the file is left untouched
(the tool only prints "Already tracked"); otherwise the built marker is
appended, after ensuring a trailing newline. -/
def add_marker (lsStdout : Option String) (hashObject : String → Option String)
    (today : String) (content : String) (watchGlobs : List String) : String :=
  if has_freshness_marker content then content
  else
    let watchesHash := compute_hash_bootstrap lsStdout hashObject watchGlobs
    let marker := build_marker watchesHash today watchGlobs
    let content' := if strEndsWithNL content then content else content ++ "\n"
    content' ++ marker

/-! ## Staleness Evaluator (`context_audit.py main`, lines 188-231) -/

/-- The per-document verdict printed by the audit. -/
inductive DocStatus where
  | unmarked
  | stale
  | current
deriving DecidableEq, Repr

/-- The audit's per-document classification (lines 198-227): no parsed
marker → `NONE` row (unmarked); otherwise recompute the hash from the
stored watches and compare with the stored one. -/
def classify_document (lsStdout : Option String)
    (hashObject : String → Option String) (content : String) : DocStatus :=
  match parse_freshness_marker content with
  | none => .unmarked
  | some marker =>
    let storedHash := marker.watches_hash
    let currentHash := compute_hash lsStdout hashObject marker.watches
    if storedHash ≠ currentHash then .stale else .current

/-! ## Hash-update tool (`context_update_hash.py main`, lines 92-140)

The two `re.sub` calls use patterns `watches_hash:\s*\S+` and
`last_verified:\s*\S+`: every non-overlapping occurrence of the label
followed (after greedy `\s*`) by a non-empty `\S+` token is replaced, and
scanning resumes after the match.  Defined with fuel (`s.length` steps
always suffice because every step consumes at least one character). -/

def subFieldFuel (lit repl : List Char) : Nat → List Char → List Char
  | 0, s => s
  | _ + 1, [] => []
  | fuel + 1, c :: cs =>
    match dropLit? lit (c :: cs) with
    | some after =>
      let tok := (after.dropWhile pyIsSpace).takeWhile (fun x => !pyIsSpace x)
      if tok.isEmpty then c :: subFieldFuel lit repl fuel cs
      else repl ++ subFieldFuel lit repl fuel
        ((after.dropWhile pyIsSpace).drop tok.length)
    | none => c :: subFieldFuel lit repl fuel cs

def subField (lit repl s : List Char) : List Char :=
  subFieldFuel lit repl s.length s

/-- `main` of `context_update_hash.py` as a content transformer.  `none`
models the `sys.exit(1)` branches: no marker, empty watch list, or a failed
git call inside `compute_hash`.  On success the new content is
`content[:match.start(2)] + new_block + content[match.end(2):]` where
`new_block` is the body with both fields rewritten. -/
def update_main (lsStdout : Option String) (hashObject : String → Option String)
    (today : String) (content : String) : Option String :=
  match findMarkerSplit content.toList with
  | none => none
  | some (pre, block, post) =>
    let watches := (parseWatchesLinesBreak false (pySplitlinesL block)).map
      (fun l => String.mk l)
    if watches.isEmpty then none
    else
      match compute_hash_update lsStdout hashObject watches with
      | none => none
      | some newHash =>
        let b1 := subField "watches_hash:".toList
          ("watches_hash: " ++ newHash).toList block
        let b2 := subField "last_verified:".toList
          ("last_verified: " ++ today).toList b1
        some (String.mk (pre ++ b2 ++ post))

/-! ## Hook Lifecycle Manager (`install_hooks.py`) -/

/-- The inline `post-commit` hook template (`_POST_COMMIT_HOOK`). -/
def postCommitTemplate : String :=
  "#!/bin/sh\n# Context freshness check — warns if committed files affect context\nSCRIPTS_DIR=\"$(git rev-parse --show-toplevel)/scripts\"\nif command -v python3 >/dev/null 2>&1 && [ -f \"$SCRIPTS_DIR/context_check_watches.py\" ]; then\n  git diff-tree --no-commit-id --name-only -r HEAD | xargs python3 \"$SCRIPTS_DIR/context_check_watches.py\" 2>/dev/null\nfi\n"

/-- The inline `post-merge` hook template (`_POST_MERGE_HOOK`). -/
def postMergeTemplate : String :=
  "#!/bin/sh\n# Context freshness audit after merge/pull\nSCRIPTS_DIR=\"$(git rev-parse --show-toplevel)/scripts\"\nif command -v python3 >/dev/null 2>&1 && [ -f \"$SCRIPTS_DIR/context_audit.py\" ]; then\n  python3 \"$SCRIPTS_DIR/context_audit.py\" 2>/dev/null\nfi\n"

/-- The sentinel test of `write_hook` (line 91) and `_remove_hook_file`
(line 244): does the text contain either call signature? -/
def containsHookSig (s : String) : Bool :=
  strContains s "context_check_watches" || strContains s "context_audit"

/-- The `body_start` scan of `write_hook` (lines 99-108): skip a shebang
anywhere before the first real line, and comment lines while they are
contiguous from the current `body_start`. -/
def bodyStartCalc : Nat → Nat → List String → Nat
  | _, bs, [] => bs
  | i, bs, l :: ls =>
    if strStartsWith l "#!" then bodyStartCalc (i + 1) (i + 1) ls
    else if strStartsWith l "#" && i == bs then bodyStartCalc (i + 1) (i + 1) ls
    else bs

/-- `write_hook` (lines 87-117) as a content transformer: `existing` is the
current hook file content (`none` = file absent).  Absent → write the
template; already containing a signature → unchanged; otherwise append the
template's body under the section marker. -/
def write_hook (existing : Option String) (content : String) : String :=
  match existing with
  | none => content
  | some ex =>
    if containsHookSig ex then ex
    else
      let lines := pySplitlines content
      let bs := bodyStartCalc 0 0 lines
      ex ++ "\n# --- progressive-context hooks ---\n" ++
        joinNL (lines.drop bs) ++ "\n"

/-- The `hook_entry` appended by `install_precommit` (lines 167-183);
`scriptsDir` stands for the interpolated `{scripts_dir}`. -/
def precommitHookEntry (scriptsDir : String) : String :=
  "\n# --- progressive-context hooks ---\n- repo: local\n  hooks:\n    - id: context-check-watches\n      name: Check context freshness\n      entry: python3 " ++ scriptsDir ++
  "/context_check_watches.py\n      language: system\n      stages: [post-commit]\n      always_run: true\n    - id: context-audit\n      name: Context audit (post-merge)\n      entry: python3 " ++ scriptsDir ++
  "/context_audit.py\n      language: system\n      stages: [post-merge]\n      always_run: true\n"

/-- `install_precommit` (lines 151-189) as a transformer of the
`.pre-commit-config.yaml` content. -/
def install_precommit_content (config : String) (scriptsDir : String) : String :=
  if strContains config "context_check_watches" then config
  else config ++ precommitHookEntry scriptsDir

/-- The shell scaffolding keywords of `_remove_hook_file` (line 250). -/
def shellScaffolding : List (List Char) :=
  ["if".toList, "fi".toList, "then".toList, "else".toList,
   "elif".toList, "done".toList, "do".toList]

/-- Does the line contain one of `CONTEXT_HOOK_SIGNATURES`? -/
def containsSigLine (l : String) : Bool :=
  strContains l "context_check_watches" || strContains l "context_audit"

/-- `_is_ours` (lines 252-266): classify a hook-file line as owned by this
system (blank, comment, shebang, signature, marker, known scaffolding) or
foreign. -/
def is_ours (line : String) : Bool :=
  let s := pyStripL line.toList
  s.isEmpty || "#".toList.isPrefixOf s || "#!/".toList.isPrefixOf line.toList ||
  containsSigLine line ||
  strContains line "progressive-context" ||
  strContains line "SCRIPTS_DIR=" || strContains line "command -v python3" ||
  strContains line "xargs python3" || strContains line "git diff-tree" ||
  shellScaffolding.contains (pyRstripSemi s)

/-- The reconstruction loop of `_remove_hook_file` (lines 277-293): `skip`
is the `skip_block` flag. -/
def cleanLines (skip : Bool) : List String → List String
  | [] => []
  | l :: ls =>
    if strContains l "progressive-context" then cleanLines true ls
    else if skip && containsSigLine l then cleanLines true ls
    else if skip && (pyStripL l.toList).isEmpty then cleanLines true ls
    else if is_ours l && !(strStartsWith l "#!/") then cleanLines false ls
    else l :: cleanLines false ls

/-- Outcome of `_remove_hook_file` on an existing hook file. -/
inductive RemoveResult where
  | untouched
  | deleted
  | rewritten (content : String)
deriving DecidableEq, Repr

/-- `_remove_hook_file` (lines 231-297) on an existing file's content: no
signature anywhere → untouched; no foreign line → the file is deleted;
otherwise the file is rewritten from the cleaned lines. -/
def remove_hook_file (content : String) : RemoveResult :=
  if !containsHookSig content then .untouched
  else
    let lines := pySplitlines content
    let foreign := lines.filter (fun l => !is_ours l)
    if foreign.isEmpty then .deleted
    else .rewritten (joinNL (cleanLines false lines) ++ "\n")

/-! ## Helper lemmas -/

theorem matchedFiles_nil_globs (allFiles : List String) :
    matchedFiles allFiles [] = [] := by
  simp [matchedFiles]

/-! ## Claims -/

/-- C3, counterexample: the bootstrap tool's `compute_hash` returns
`"0000000"`, not `"ERROR"`, when the hashing step fails on a non-empty
matched set (`git ls-files` printed `a`, the watch list is `["a"]`, and
`git hash-object` fails), so not every fingerprint-computing tool yields the
`"ERROR"` sentinel on a hashing failure. -/
theorem spec_C3_counterexample :
    compute_hash_bootstrap (some "a") (fun _ => none) ["a"] = "0000000" ∧
    ("0000000" : String) ≠ "ERROR" := by
  constructor
  · decide
  · decide

/-- C3 (amended): in the audit tool (`context_audit.py`), any failure of
`git ls-files` or of the hashing step yields `"ERROR"`, which is distinct
from the empty-match sentinel `"0000000"`; the bootstrap tool instead
collapses both failures to `"0000000"`, and the update tool aborts with an
error exit rather than returning a sentinel. -/
theorem spec_C3_amended (hashObject : String → Option String)
    (globs : List String) (out : String) :
    compute_hash none hashObject globs = "ERROR" ∧
    ((matchedFiles (lsFilesOf out) globs).isEmpty = false →
      hashObject (sortedBlob (matchedFiles (lsFilesOf out) globs)) = none →
      compute_hash (some out) hashObject globs = "ERROR") ∧
    ("ERROR" : String) ≠ "0000000" ∧
    compute_hash_bootstrap none hashObject globs = "0000000" ∧
    ((matchedFiles (lsFilesOf out) globs).isEmpty = false →
      hashObject (sortedBlob (matchedFiles (lsFilesOf out) globs)) = none →
      compute_hash_bootstrap (some out) hashObject globs = "0000000") ∧
    compute_hash_update none hashObject globs = none ∧
    ((matchedFiles (lsFilesOf out) globs).isEmpty = false →
      hashObject (sortedBlob (matchedFiles (lsFilesOf out) globs)) = none →
      compute_hash_update (some out) hashObject globs = none) := by
  refine ⟨rfl, fun h1 h2 => ?_, by decide, rfl, fun h1 h2 => ?_, rfl,
    fun h1 h2 => ?_⟩
  · simp [compute_hash, h1, h2]
  · simp [compute_hash_bootstrap, h1, h2]
  · simp [compute_hash_update, h1, h2]

/-- Witness for C3 (amended) at a concrete input: `git ls-files` printed
`a`, the watch list is `["a"]`, and the hashing step fails. -/
theorem spec_C3_amended_witness :
    compute_hash (some "a") (fun _ => none) ["a"] = "ERROR" :=
  (spec_C3_amended (fun _ => none) ["a"] "a").2.1 (by decide) rfl

/-- C10, counterexample: nothing in the code prevents the content hash of a
real, non-empty file set from beginning with `0000000`; with such a digest
the fingerprint of the non-empty set `{a}` is exactly the empty-match
sentinel `"0000000"`, so the sentinel can collide with the fingerprint of a
non-empty file set. -/
theorem spec_C10_counterexample :
    matchedFiles (lsFilesOf "a") ["a"] ≠ [] ∧
    compute_hash (some "a")
      (fun _ => some "0000000abcdef0123456789abcdef0123456789") ["a"] =
      "0000000" := by
  constructor
  · decide
  · decide

/-- C10 (amended): a watch-pattern list matching zero tracked files yields
the fixed sentinel `"0000000"` without consulting the content hash (the
result is the same under every hashing oracle); the sentinel is distinct
from the fingerprint of a non-empty matched set whenever the underlying
digest's 7-character prefix is not itself `0000000`. -/
theorem spec_C10_amended (out : String) (globs : List String)
    (hashObject : String → Option String) :
    ((matchedFiles (lsFilesOf out) globs).isEmpty = true →
      compute_hash (some out) hashObject globs = "0000000" ∧
      ∀ hashObject2 : String → Option String,
        compute_hash (some out) hashObject globs =
          compute_hash (some out) hashObject2 globs) ∧
    ((matchedFiles (lsFilesOf out) globs).isEmpty = false →
      ∀ dg, hashObject (sortedBlob (matchedFiles (lsFilesOf out) globs)) = some dg →
        strTake (pyStrip dg) 7 ≠ "0000000" →
        compute_hash (some out) hashObject globs ≠ "0000000") := by
  constructor
  · intro h
    refine ⟨by simp [compute_hash, h], fun hashObject2 => ?_⟩
    simp [compute_hash, h]
  · intro h dg hdg hne
    simp [compute_hash, h, hdg]
    exact hne

/-- Witness for C10 (amended) at concrete inputs: no tracked file matches
`*.zzz`, and a digest not starting with seven zeros gives a fingerprint
different from the sentinel. -/
theorem spec_C10_amended_witness :
    compute_hash (some "a.txt") (fun _ => none) ["*.zzz"] = "0000000" ∧
    compute_hash (some "a.txt")
      (fun _ => some "deadbeef00112233445566778899aabbccddeeff") ["a.txt"] ≠
      "0000000" := by
  constructor
  · exact ((spec_C10_amended "a.txt" ["*.zzz"] (fun _ => none)).1 (by decide)).1
  · exact (spec_C10_amended "a.txt" ["a.txt"]
      (fun _ => some "deadbeef00112233445566778899aabbccddeeff")).2
      (by decide) "deadbeef00112233445566778899aabbccddeeff" rfl (by decide)

/-- C2, counterexample: a delimiter block with a `watches_hash` but no
`watches` entries is NOT treated as absent: `parse_freshness_marker`
returns a record (with an empty watch list), and the audit classifies the
document as Stale (comparing `abc1234` against the empty-match fingerprint
`0000000`), not as Unmarked. -/
theorem spec_C2_counterexample :
    parse_freshness_marker
      "<!-- freshness\nwatches_hash: abc1234\nlast_verified: 2024-01-01\nwatches:\n-->" =
      some ⟨"abc1234", some "2024-01-01", []⟩ ∧
    classify_document (some "") (fun _ => none)
      "<!-- freshness\nwatches_hash: abc1234\nlast_verified: 2024-01-01\nwatches:\n-->" =
      .stale := by
  constructor
  · decide
  · decide

/-- C2 (amended): a delimiter block with no extractable `watches_hash`
token is treated as absent (the document is Unmarked); but a block whose
`watches` list is empty is still an actionable marker: the audit classifies
the document by comparing the stored hash against the empty-match
fingerprint `"0000000"` (Current when they agree, Stale otherwise). -/
theorem spec_C2_amended (content out : String)
    (hashObject : String → Option String) (m : FreshnessMarker) :
    (parse_freshness_marker content = none →
      classify_document (some out) hashObject content = .unmarked) ∧
    (parse_freshness_marker content = some m → m.watches = [] →
      classify_document (some out) hashObject content =
        (if m.watches_hash = "0000000" then .current else .stale)) := by
  constructor
  · intro h
    simp [classify_document, h]
  · intro h hw
    have hch : compute_hash (some out) hashObject m.watches = "0000000" := by
      simp [compute_hash, hw, matchedFiles_nil_globs]
    simp only [classify_document, h, hch]
    by_cases he : m.watches_hash = "0000000"
    · simp [he]
    · simp [he]

/-- Witness for C2 (amended) at concrete inputs: an unmarked document, and
a marker with stored hash `abc1234` and an empty watch list classified
Stale. -/
theorem spec_C2_amended_witness :
    classify_document (some "x") (fun _ => none) "no marker here" =
      DocStatus.unmarked ∧
    classify_document (some "x") (fun _ => none)
      "<!-- freshness\nwatches_hash: abc1234\nwatches:\n-->" = DocStatus.stale := by
  constructor
  · exact (spec_C2_amended "no marker here" "x" (fun _ => none)
      ⟨"", none, []⟩).1 (by decide)
  · have h := (spec_C2_amended "<!-- freshness\nwatches_hash: abc1234\nwatches:\n-->"
      "x" (fun _ => none) ⟨"abc1234", none, []⟩).2 (by decide) rfl
    simpa using h

/-- C5: the audit's per-document classification: no parsed marker →
Unmarked; otherwise the document is Current exactly when the fingerprint
recomputed from the stored watch patterns equals the stored `watches_hash`,
and Stale exactly when it differs. -/
theorem spec_C5 (lsStdout : Option String)
    (hashObject : String → Option String) (content : String) :
    (parse_freshness_marker content = none →
      classify_document lsStdout hashObject content = .unmarked) ∧
    (∀ m, parse_freshness_marker content = some m →
      ((classify_document lsStdout hashObject content = .current ↔
          compute_hash lsStdout hashObject m.watches = m.watches_hash) ∧
       (classify_document lsStdout hashObject content = .stale ↔
          compute_hash lsStdout hashObject m.watches ≠ m.watches_hash))) := by
  constructor
  · intro h
    simp [classify_document, h]
  · intro m h
    simp only [classify_document, h]
    by_cases he : m.watches_hash = compute_hash lsStdout hashObject m.watches
    · simp [he]
    · constructor
      · simp only [if_pos (by exact he)]
        constructor
        · intro hc; cases hc
        · intro hc; exact absurd hc.symm he
      · simp only [if_pos (by exact he)]
        constructor
        · intro _; exact fun hc => he hc.symm
        · intro _; trivial

/-- Witness for C5 at concrete inputs: an unmarked document, and a marked
document whose recomputed fingerprint equals the stored hash (Current). -/
theorem spec_C5_witness :
    classify_document (some "") (fun _ => none) "" = DocStatus.unmarked ∧
    classify_document (some "") (fun _ => none)
      "<!-- freshness\nwatches_hash: 0000000\nlast_verified: d\nwatches:\n  - x\n-->" =
      DocStatus.current := by
  constructor
  · exact (spec_C5 (some "") (fun _ => none) "").1 (by decide)
  · exact (((spec_C5 (some "") (fun _ => none)
      "<!-- freshness\nwatches_hash: 0000000\nlast_verified: d\nwatches:\n  - x\n-->").2
      ⟨"0000000", some "d", ["x"]⟩ (by decide)).1).mpr (by decide)

/-- Sorting two duplicate-free lists with the same members gives the same
sorted list (sortedness plus permutation plus antisymmetry). -/
theorem sortStrings_eq_of_mem_iff {l₁ l₂ : List String} (h₁ : l₁.Nodup)
    (h₂ : l₂.Nodup) (h : ∀ a, a ∈ l₁ ↔ a ∈ l₂) :
    sortStrings l₁ = sortStrings l₂ := by
  apply List.eq_of_perm_of_sorted (r := (· ≤ · : String → String → Prop))
  · exact (List.perm_insertionSort _ l₁).trans
      (((List.perm_ext_iff_of_nodup h₁ h₂).2 h).trans
        (List.perm_insertionSort _ l₂).symm)
  · exact List.sorted_insertionSort _ _
  · exact List.sorted_insertionSort _ _

/-- The hashed value depends only on the matched set: two matched lists
with the same members produce the same `compute_hash` result. -/
theorem compute_hash_eq_of_matched_mem_iff (out : String)
    (hashObject : String → Option String) {g1 g2 : List String}
    (h : ∀ f, f ∈ matchedFiles (lsFilesOf out) g1 ↔
      f ∈ matchedFiles (lsFilesOf out) g2) :
    compute_hash (some out) hashObject g1 = compute_hash (some out) hashObject g2 := by
  have hnodup1 : (matchedFiles (lsFilesOf out) g1).Nodup := List.nodup_dedup _
  have hnodup2 : (matchedFiles (lsFilesOf out) g2).Nodup := List.nodup_dedup _
  by_cases he : matchedFiles (lsFilesOf out) g1 = []
  · have he2 : matchedFiles (lsFilesOf out) g2 = [] := by
      rw [List.eq_nil_iff_forall_not_mem]
      intro a ha
      rw [List.eq_nil_iff_forall_not_mem] at he
      exact he a ((h a).2 ha)
    simp [compute_hash, he, he2]
  · have he2 : matchedFiles (lsFilesOf out) g2 ≠ [] := by
      intro hn
      apply he
      rw [List.eq_nil_iff_forall_not_mem]
      intro a ha
      rw [List.eq_nil_iff_forall_not_mem] at hn
      exact hn a ((h a).1 ha)
    have hb : sortedBlob (matchedFiles (lsFilesOf out) g1) =
        sortedBlob (matchedFiles (lsFilesOf out) g2) := by
      unfold sortedBlob
      rw [sortStrings_eq_of_mem_iff hnodup1 hnodup2 h]
    simp only [compute_hash]
    rw [(by simp [List.isEmpty_iff, he] : (matchedFiles (lsFilesOf out) g1).isEmpty = false),
        (by simp [List.isEmpty_iff, he2] : (matchedFiles (lsFilesOf out) g2).isEmpty = false),
        hb]

/-- C4: for two non-empty watch-pattern lists matching the same final set
of tracked files the Hash Engine returns the same fingerprint; in
particular, permuting the watch-pattern list never changes the result,
because the matched paths are deduplicated and sorted before hashing. -/
theorem spec_C4 (out : String) (hashObject : String → Option String)
    (g1 g2 : List String) :
    (g1 ≠ [] → g2 ≠ [] →
      (∀ f, f ∈ matchedFiles (lsFilesOf out) g1 ↔
        f ∈ matchedFiles (lsFilesOf out) g2) →
      compute_hash (some out) hashObject g1 =
        compute_hash (some out) hashObject g2) ∧
    (g1.Perm g2 →
      compute_hash (some out) hashObject g1 =
        compute_hash (some out) hashObject g2) := by
  constructor
  · intro _ _ h
    exact compute_hash_eq_of_matched_mem_iff out hashObject h
  · intro hp
    apply compute_hash_eq_of_matched_mem_iff
    have hpred : ∀ x, (g1.any fun g => fnmatch x g) = (g2.any fun g => fnmatch x g) := by
      intro x
      rw [Bool.eq_iff_iff]
      simp only [List.any_eq_true]
      exact ⟨fun ⟨y, hy, hfy⟩ => ⟨y, hp.mem_iff.mp hy, hfy⟩,
             fun ⟨y, hy, hfy⟩ => ⟨y, hp.mem_iff.mpr hy, hfy⟩⟩
    intro f
    unfold matchedFiles
    rw [List.filter_congr (fun x _ => hpred x)]

/-- Witness for C4: the singleton pattern lists `["a", "b"]` and
`["b", "a"]` match the same tracked set and hash identically. -/
theorem spec_C4_witness :
    compute_hash (some "a") (fun s => some s) ["a", "b"] =
      compute_hash (some "a") (fun s => some s) ["b", "a"] :=
  (spec_C4 "a" (fun s => some s) ["a", "b"] ["b", "a"]).1 (by decide) (by decide)
    (fun f => by rw [show matchedFiles (lsFilesOf "a") ["a", "b"] =
      matchedFiles (lsFilesOf "a") ["b", "a"] from by decide])

/-- A line containing the section marker is classified as owned. -/
theorem is_ours_of_marker {l : String}
    (h : strContains l "progressive-context" = true) : is_ours l = true := by
  simp [is_ours, h]

/-- A line containing a call signature is classified as owned. -/
theorem is_ours_of_sig {l : String} (h : containsSigLine l = true) :
    is_ours l = true := by
  simp [is_ours, h]

/-- A blank line is classified as owned. -/
theorem is_ours_of_blank {l : String} (h : (pyStripL l.toList).isEmpty = true) :
    is_ours l = true := by
  have h' : pyStripL l.data = [] := List.isEmpty_iff.mp h
  simp [is_ours, h']

/-- The reconstruction loop of `_remove_hook_file` only deletes lines: its
output is a sublist of its input, and the foreign lines (those `_is_ours`
rejects) are preserved exactly, in their original order. -/
theorem cleanLines_sublist_and_foreign (skip : Bool) (ls : List String) :
    (cleanLines skip ls).Sublist ls ∧
    (cleanLines skip ls).filter (fun l => !is_ours l) =
      ls.filter (fun l => !is_ours l) := by
  induction ls generalizing skip with
  | nil => simp [cleanLines]
  | cons l ls ih =>
    rw [cleanLines]
    by_cases h1 : strContains l "progressive-context" = true
    · rw [if_pos h1]
      refine ⟨(ih true).1.cons l, ?_⟩
      rw [(ih true).2, List.filter_cons, if_neg (by simp [is_ours_of_marker h1])]
    · rw [if_neg h1]
      by_cases h2 : (skip && containsSigLine l) = true
      · rw [if_pos h2]
        refine ⟨(ih true).1.cons l, ?_⟩
        rw [(ih true).2, List.filter_cons,
          if_neg (by simp [is_ours_of_sig (Bool.and_elim_right h2)])]
      · rw [if_neg h2]
        by_cases h3 : (skip && (pyStripL l.toList).isEmpty) = true
        · rw [if_pos h3]
          refine ⟨(ih true).1.cons l, ?_⟩
          rw [(ih true).2, List.filter_cons,
            if_neg (by simp [is_ours_of_blank (Bool.and_elim_right h3)])]
        · rw [if_neg h3]
          by_cases h4 : (is_ours l && !strStartsWith l "#!/") = true
          · rw [if_pos h4]
            refine ⟨(ih false).1.cons l, ?_⟩
            rw [(ih false).2, List.filter_cons,
              if_neg (by simp [Bool.and_elim_left h4])]
          · rw [if_neg h4]
            refine ⟨(ih false).1.cons₂ l, ?_⟩
            rw [List.filter_cons, List.filter_cons, (ih false).2]

/-- C1: on a hook file that contains this system's signatures interleaved
with foreign lines, the uninstall cleanup rewrites the file from the
cleaned line list, which is a subsequence of the original lines (only
deletions, and every deleted line is one `_is_ours` claims) in which every
foreign line survives in its original order. -/
theorem spec_C1 (content : String)
    (hsig : containsHookSig content = true)
    (hforeign : (pySplitlines content).filter (fun l => !is_ours l) ≠ []) :
    remove_hook_file content =
      .rewritten (joinNL (cleanLines false (pySplitlines content)) ++ "\n") ∧
    (cleanLines false (pySplitlines content)).Sublist (pySplitlines content) ∧
    (cleanLines false (pySplitlines content)).filter (fun l => !is_ours l) =
      (pySplitlines content).filter (fun l => !is_ours l) := by
  refine ⟨?_, (cleanLines_sublist_and_foreign false _).1,
    (cleanLines_sublist_and_foreign false _).2⟩
  have hfe : ((pySplitlines content).filter (fun l => !is_ours l)).isEmpty = false := by
    rw [Bool.eq_false_iff]
    intro hh
    exact hforeign (List.isEmpty_iff.mp hh)
  simp [remove_hook_file, hsig, hfe]

/-- Witness for C1 at a concrete hook file: a shebang, two foreign command
lines, and an appended owned section.  The cleanup keeps the shebang and
both foreign lines, in order. -/
theorem spec_C1_witness :
    remove_hook_file
      "#!/bin/sh\nmy_linter --fix\n# --- progressive-context hooks ---\npython3 \"$SCRIPTS_DIR/context_audit.py\" 2>/dev/null\nmy_other_tool run\n" =
      .rewritten "#!/bin/sh\nmy_linter --fix\nmy_other_tool run\n" := by
  have h := spec_C1
    "#!/bin/sh\nmy_linter --fix\n# --- progressive-context hooks ---\npython3 \"$SCRIPTS_DIR/context_audit.py\" 2>/dev/null\nmy_other_tool run\n"
    (by decide) (by decide)
  rw [h.1]
  decide

/-- `isInfixL` decides list infixhood. -/
theorem isInfixL_iff (n h : List Char) : isInfixL n h = true ↔ n <:+: h := by
  induction h with
  | nil =>
    simp [isInfixL, List.isEmpty_iff]
  | cons c rest ih =>
    rw [isInfixL, Bool.or_eq_true, List.infix_cons_iff, ih,
      List.isPrefixOf_iff_prefix]

/-- A substring of the right half is a substring of the concatenation. -/
theorem strContains_append_right (a b n : String)
    (h : strContains b n = true) : strContains (a ++ b) n = true := by
  rw [strContains, isInfixL_iff] at h ⊢
  obtain ⟨u, v, huv⟩ := h
  refine ⟨a.toList ++ u, v, ?_⟩
  have : (a ++ b).toList = a.toList ++ b.toList := String.data_append a b
  rw [this, ← huv]
  simp [List.append_assoc]

/-- A substring of the left half is a substring of the concatenation. -/
theorem strContains_append_left (a b n : String)
    (h : strContains a n = true) : strContains (a ++ b) n = true := by
  rw [strContains, isInfixL_iff] at h ⊢
  obtain ⟨u, v, huv⟩ := h
  refine ⟨u, v ++ b.toList, ?_⟩
  have : (a ++ b).toList = a.toList ++ b.toList := String.data_append a b
  rw [this, ← huv]
  simp [List.append_assoc]

/-- `write_hook` is idempotent for any template whose full text and
stripped body both carry a call signature (both inline templates do). -/
theorem write_hook_idempotent (e : Option String) (tmpl : String)
    (htmpl : containsHookSig tmpl = true)
    (hbody : containsHookSig
      ("\n# --- progressive-context hooks ---\n" ++
        joinNL ((pySplitlines tmpl).drop (bodyStartCalc 0 0 (pySplitlines tmpl))) ++
        "\n") = true) :
    write_hook (some (write_hook e tmpl)) tmpl = write_hook e tmpl := by
  match e with
  | none =>
    simp only [write_hook, htmpl, if_pos]
  | some ex =>
    by_cases hex : containsHookSig ex = true
    · simp only [write_hook, hex, if_pos]
    · simp only [write_hook, hex, Bool.false_eq_true, if_false, if_neg]
      have happ : containsHookSig
          (ex ++ "\n# --- progressive-context hooks ---\n" ++
            joinNL ((pySplitlines tmpl).drop (bodyStartCalc 0 0 (pySplitlines tmpl))) ++
            "\n") = true := by
        unfold containsHookSig at hbody ⊢
        rw [Bool.or_eq_true] at hbody ⊢
        cases hbody with
        | inl h =>
          left
          have := strContains_append_right ex
            ("\n# --- progressive-context hooks ---\n" ++
              joinNL ((pySplitlines tmpl).drop (bodyStartCalc 0 0 (pySplitlines tmpl))) ++
              "\n") "context_check_watches" h
          calc _ = _ := by rw [show ex ++ "\n# --- progressive-context hooks ---\n" ++
              joinNL ((pySplitlines tmpl).drop (bodyStartCalc 0 0 (pySplitlines tmpl))) ++
              "\n" = ex ++ ("\n# --- progressive-context hooks ---\n" ++
              joinNL ((pySplitlines tmpl).drop (bodyStartCalc 0 0 (pySplitlines tmpl))) ++
              "\n") from by simp [String.append_assoc]]
          _ = true := this
        | inr h =>
          right
          have := strContains_append_right ex
            ("\n# --- progressive-context hooks ---\n" ++
              joinNL ((pySplitlines tmpl).drop (bodyStartCalc 0 0 (pySplitlines tmpl))) ++
              "\n") "context_audit" h
          calc _ = _ := by rw [show ex ++ "\n# --- progressive-context hooks ---\n" ++
              joinNL ((pySplitlines tmpl).drop (bodyStartCalc 0 0 (pySplitlines tmpl))) ++
              "\n" = ex ++ ("\n# --- progressive-context hooks ---\n" ++
              joinNL ((pySplitlines tmpl).drop (bodyStartCalc 0 0 (pySplitlines tmpl))) ++
              "\n") from by simp [String.append_assoc]]
          _ = true := this
      simp only [write_hook, happ, if_pos]

set_option maxRecDepth 40000 in
/-- C9: for each hook mechanism and each hook point, installing a second
time over the state left by the first install is a no-op: the hook file (or
the pre-commit config) already contains this system's call signatures, so
the second run skips it and the content is unchanged. -/
theorem spec_C9 (e : Option String) (cfg : String) (sd : String) :
    write_hook (some (write_hook e postCommitTemplate)) postCommitTemplate =
      write_hook e postCommitTemplate ∧
    write_hook (some (write_hook e postMergeTemplate)) postMergeTemplate =
      write_hook e postMergeTemplate ∧
    install_precommit_content (install_precommit_content cfg sd) sd =
      install_precommit_content cfg sd := by
  refine ⟨write_hook_idempotent e postCommitTemplate (by decide) (by decide),
    write_hook_idempotent e postMergeTemplate (by decide) (by decide), ?_⟩
  by_cases hc : strContains cfg "context_check_watches" = true
  · simp only [install_precommit_content, hc, if_pos]
  · simp only [install_precommit_content, hc, Bool.false_eq_true, if_false,
      if_neg]
    have hentry : strContains (precommitHookEntry sd) "context_check_watches" = true := by
      unfold precommitHookEntry
      apply strContains_append_left
      apply strContains_append_left
      apply strContains_append_right
      decide
    have : strContains (cfg ++ precommitHookEntry sd) "context_check_watches" = true :=
      strContains_append_right cfg _ _ hentry
    simp only [install_precommit_content, this, if_pos]

/-- Dropping a literal from a string that begins with it. -/
theorem dropLit?_append (l rest : List Char) : dropLit? l (l ++ rest) = some rest := by
  induction l with
  | nil => rfl
  | cons a l ih => simp [dropLit?, ih]

/-- `scanClose` succeeds whenever the input contains a `'\n'` followed by a
position where `closesHere` holds. -/
theorem scanClose_isSome (acc u v : List Char) (hv : closesHere v = true) :
    (scanClose acc (u ++ '\n' :: v)).isSome := by
  induction u generalizing acc with
  | nil => simp [scanClose, hv]
  | cons x xs ih =>
    rw [List.cons_append, scanClose]
    by_cases hx : (x == '\n' && closesHere (xs ++ '\n' :: v)) = true
    · simp [hx]
    · simp only [hx, Bool.false_eq_true, if_false]
      exact ih _

/-- The freshness pattern matches at the head of
`"<!-- freshness\n" ++ c :: rest` whenever `c` is not whitespace and the
closer scan succeeds on `c :: rest`. -/
theorem tryMatchHere_marker_core (c : Char) (rest : List Char)
    (hc : pyIsSpace c = false)
    (hscan : (scanClose [] (c :: rest)).isSome) :
    (tryMatchHere ('<' :: '!' :: '-' :: '-' :: ' ' :: 'f' :: 'r' :: 'e' ::
      's' :: 'h' :: 'n' :: 'e' :: 's' :: 's' :: '\n' :: c :: rest)).isSome := by
  obtain ⟨bp, hbp⟩ := Option.isSome_iff_exists.mp hscan
  have h1 : ('<' :: '!' :: '-' :: '-' :: ' ' :: 'f' :: 'r' :: 'e' :: 's' ::
      'h' :: 'n' :: 'e' :: 's' :: 's' :: '\n' :: c :: rest) =
      "<!--".toList ++ (' ' :: 'f' :: 'r' :: 'e' :: 's' :: 'h' :: 'n' ::
        'e' :: 's' :: 's' :: '\n' :: c :: rest) := rfl
  have h2 : (' ' :: 'f' :: 'r' :: 'e' :: 's' :: 'h' :: 'n' :: 'e' :: 's' ::
      's' :: '\n' :: c :: rest).dropWhile pyIsSpace =
      "freshness".toList ++ ('\n' :: c :: rest) := by
    rw [List.dropWhile_cons, if_pos (by decide), List.dropWhile_cons,
      if_neg (by decide)]
    rfl
  have h3 : ('\n' :: c :: rest).takeWhile pyIsSpace = ['\n'] := by
    rw [List.takeWhile_cons, if_pos (by decide), List.takeWhile_cons,
      if_neg (by simp [hc])]
  have h4 : ('\n' :: c :: rest).dropWhile pyIsSpace = c :: rest := by
    rw [List.dropWhile_cons, if_pos (by decide), List.dropWhile_cons,
      if_neg (by simp [hc])]
  simp only [tryMatchHere, h1, dropLit?_append, h2, h3, h4]
  rw [show nlSplitsDesc ['\n'] = [(['\n'], ([] : List Char))] from rfl]
  simp only [firstSome, List.nil_append, hbp]
  rfl

/-- If the freshness pattern matches at the start of `mid`, `re.search`
succeeds on `pre ++ mid`. -/
theorem findMarkerSplit_append (pre mid : List Char)
    (h : (tryMatchHere mid).isSome) : (findMarkerSplit (pre ++ mid)).isSome := by
  induction pre with
  | nil =>
    match mid, h with
    | c :: cs, h =>
      rw [List.nil_append, findMarkerSplit]
      obtain ⟨r, hr⟩ := Option.isSome_iff_exists.mp h
      rw [hr]
      rfl
  | cons p pre ih =>
    rw [List.cons_append, findMarkerSplit]
    cases htm : tryMatchHere (p :: (pre ++ mid)) with
    | some r => rfl
    | none =>
      obtain ⟨⟨a, b, r⟩, hr⟩ := Option.isSome_iff_exists.mp ih
      rw [hr]
      rfl

/-- Appending a freshly built marker always leaves a parseable marker:
`has_freshness_marker` holds on `content ++ build_marker …` for every hash,
date and glob list. -/
theorem has_marker_after_append (content' watchesHash today : String)
    (globs : List String) :
    has_freshness_marker (content' ++ build_marker watchesHash today globs) = true := by
  unfold has_freshness_marker
  have hs : (content' ++ build_marker watchesHash today globs).toList =
      (content'.toList ++ ['\n']) ++
        ('<' :: '!' :: '-' :: '-' :: ' ' :: 'f' :: 'r' :: 'e' :: 's' :: 'h' ::
         'n' :: 'e' :: 's' :: 's' :: '\n' :: 'w' ::
          (("atches_hash: ".toList ++ watchesHash.toList ++
            ("\nlast_verified: ".toList ++ today.toList ++
             ("\nwatches:\n".toList ++
              (joinNL (globs.map (fun g => "  - " ++ g))).toList))) ++
           ('\n' :: '-' :: '-' :: '>' :: '\n' :: []))) := by
    simp [build_marker, String.data_append]
  rw [hs]
  rw [Option.isSome_iff_exists] at *
  have := findMarkerSplit_append (content'.toList ++ ['\n'])
    ('<' :: '!' :: '-' :: '-' :: ' ' :: 'f' :: 'r' :: 'e' :: 's' :: 'h' ::
      'n' :: 'e' :: 's' :: 's' :: '\n' :: 'w' ::
      (("atches_hash: ".toList ++ watchesHash.toList ++
        ("\nlast_verified: ".toList ++ today.toList ++
         ("\nwatches:\n".toList ++
          (joinNL (globs.map (fun g => "  - " ++ g))).toList))) ++
       ('\n' :: '-' :: '-' :: '>' :: '\n' :: [])))
    (tryMatchHere_marker_core 'w' _ (by decide)
      (scanClose_isSome []
        ('w' :: ("atches_hash: ".toList ++ watchesHash.toList ++
          ("\nlast_verified: ".toList ++ today.toList ++
           ("\nwatches:\n".toList ++
            (joinNL (globs.map (fun g => "  - " ++ g))).toList))))
        ('-' :: '-' :: '>' :: '\n' :: []) (by decide)))
  rw [Option.isSome_iff_exists] at this
  convert this using 3

/-- C8: adding a marker to a document that already carries one leaves the
content byte-identical, and adding a marker twice leaves the document
identical after the second call to after the first. -/
theorem spec_C8 (lsStdout : Option String) (hashObject : String → Option String)
    (today content : String) (globs : List String) :
    (has_freshness_marker content = true →
      add_marker lsStdout hashObject today content globs = content) ∧
    add_marker lsStdout hashObject today
      (add_marker lsStdout hashObject today content globs) globs =
      add_marker lsStdout hashObject today content globs := by
  constructor
  · intro h
    simp [add_marker, h]
  · by_cases hm : has_freshness_marker content = true
    · simp [add_marker, hm]
    · have hfirst : add_marker lsStdout hashObject today content globs =
          (if strEndsWithNL content = true then content else content ++ "\n") ++
            build_marker (compute_hash_bootstrap lsStdout hashObject globs)
              today globs := by
        rw [add_marker, if_neg hm]
      have hmark : has_freshness_marker
          (add_marker lsStdout hashObject today content globs) = true := by
        rw [hfirst]
        by_cases hnl : strEndsWithNL content = true
        · rw [if_pos hnl]; exact has_marker_after_append _ _ _ _
        · rw [if_neg hnl]; exact has_marker_after_append _ _ _ _
      rw [add_marker, if_pos hmark]

/-- Witness for C8: adding a marker to an already-marked document is the
identity on its content. -/
theorem spec_C8_witness :
    add_marker (some "") (fun _ => none) "2024-01-01"
      "doc\n<!-- freshness\nwatches_hash: abc1234\nwatches:\n  - x\n-->\n" ["x"] =
      "doc\n<!-- freshness\nwatches_hash: abc1234\nwatches:\n  - x\n-->\n" :=
  (spec_C8 (some "") (fun _ => none) "2024-01-01"
    "doc\n<!-- freshness\nwatches_hash: abc1234\nwatches:\n  - x\n-->\n" ["x"]).1
    (by decide)

/-- `dropLit?` succeeds exactly on strings beginning with the literal. -/
theorem dropLit?_eq_some {lit s r : List Char} :
    dropLit? lit s = some r ↔ s = lit ++ r := by
  induction lit generalizing s with
  | nil => simp [dropLit?, eq_comm]
  | cons a l ih =>
    cases s with
    | nil => simp [dropLit?]
    | cons c cs =>
      by_cases hac : a = c
      · subst hac
        simp [dropLit?, ih]
      · simp [dropLit?, hac, Ne.symm hac]

/-- `takeWhile` over a block that satisfies the predicate, stopped by the
first failing element. -/
theorem takeWhile_append_stop (p : Char → Bool) (xs : List Char) (y : Char)
    (ys : List Char) (hxs : ∀ x ∈ xs, p x = true) (hy : p y = false) :
    (xs ++ y :: ys).takeWhile p = xs := by
  induction xs with
  | nil => simp [List.takeWhile_cons, hy]
  | cons x xs ih =>
    rw [List.cons_append, List.takeWhile_cons,
      if_pos (hxs x (List.mem_cons_self x xs)),
      ih (fun z hz => hxs z (List.mem_cons_of_mem x hz))]

/-- `dropWhile` over a block that satisfies the predicate, stopped by the
first failing element. -/
theorem dropWhile_append_stop (p : Char → Bool) (xs : List Char) (y : Char)
    (ys : List Char) (hxs : ∀ x ∈ xs, p x = true) (hy : p y = false) :
    (xs ++ y :: ys).dropWhile p = y :: ys := by
  induction xs with
  | nil => simp [List.dropWhile_cons, hy]
  | cons x xs ih =>
    rw [List.cons_append, List.dropWhile_cons,
      if_pos (hxs x (List.mem_cons_self x xs)),
      ih (fun z hz => hxs z (List.mem_cons_of_mem x hz))]

/-- `re.sub` leaves a string without any occurrence of the label untouched
(for every fuel value). -/
theorem subFieldFuel_no_occ (lit repl : List Char) (fuel : Nat)
    (s : List Char) (h : isInfixL lit s = false) :
    subFieldFuel lit repl fuel s = s := by
  induction fuel generalizing s with
  | zero => rfl
  | succ fuel ih =>
    cases s with
    | nil => rfl
    | cons c cs =>
      rw [subFieldFuel]
      cases hdl : dropLit? lit (c :: cs) with
      | some after =>
        exfalso
        have : lit.isPrefixOf (c :: cs) = true := by
          rw [List.isPrefixOf_iff_prefix]
          exact ⟨after, (dropLit?_eq_some.mp hdl).symm⟩
        rw [isInfixL, this] at h
        simp at h
      | none =>
        have hcs : isInfixL lit cs = false := by
          rw [isInfixL, Bool.or_eq_false_iff] at h
          exact h.2
        rw [ih cs hcs]

/-- One `re.sub` replacement step at the head: the label, one space, a
non-empty whitespace-free token, then a remainder that begins with
whitespace and has no further occurrence of the label. -/
theorem subFieldFuel_replace_head (l0 : Char) (lit' repl : List Char)
    (fuel : Nat) (tok X : List Char)
    (htok : tok ≠ []) (htokw : ∀ c ∈ tok, pyIsSpace c = false)
    (hX : ∃ y ys, X = y :: ys ∧ pyIsSpace y = true)
    (hocc : isInfixL (l0 :: lit') X = false) :
    subFieldFuel (l0 :: lit') repl (fuel + 1)
      ((l0 :: lit') ++ (' ' :: (tok ++ X))) = repl ++ X := by
  obtain ⟨y, ys, hXe, hy⟩ := hX
  obtain ⟨t0, ts, hte⟩ := List.exists_cons_of_ne_nil htok
  have hdw : (' ' :: (tok ++ X)).dropWhile pyIsSpace = tok ++ X := by
    rw [List.dropWhile_cons, if_pos (by decide)]
    rw [hte, List.cons_append, List.dropWhile_cons,
      if_neg (by simp [htokw t0 (by simp [hte])])]
  have htw : (tok ++ X).takeWhile (fun x => !pyIsSpace x) = tok := by
    rw [hXe]
    exact takeWhile_append_stop _ tok y ys
      (fun c hc => by simp [htokw c hc]) (by simp [hy])
  rw [List.cons_append, subFieldFuel]
  rw [show (l0 :: (lit' ++ ' ' :: (tok ++ X))) = (l0 :: lit') ++ (' ' :: (tok ++ X)) by simp]
  rw [dropLit?_append]
  simp only [hdw, htw]
  rw [if_neg (by simp [hte]), List.drop_left, subFieldFuel_no_occ _ _ _ _ hocc]

/-- The `re.sub` scanner copies verbatim any segment at whose non-empty
suffixes the label never matches. -/
theorem subFieldFuel_skip (lit repl : List Char) : ∀ (seg rest : List Char)
    (fuel : Nat),
    (∀ t, t <:+ seg → t ≠ [] → lit.isPrefixOf (t ++ rest) = false) →
    subFieldFuel lit repl (seg.length + fuel) (seg ++ rest) =
      seg ++ subFieldFuel lit repl fuel rest := by
  intro seg
  induction seg with
  | nil => intro rest fuel _; simp
  | cons c cs ih =>
    intro rest fuel hfail
    have hdl : dropLit? lit (c :: (cs ++ rest)) = none := by
      cases hd : dropLit? lit (c :: (cs ++ rest)) with
      | none => rfl
      | some r =>
        exfalso
        have hpre : lit.isPrefixOf ((c :: cs) ++ rest) = true := by
          rw [List.isPrefixOf_iff_prefix]
          refine ⟨r, ?_⟩
          rw [List.cons_append]
          exact (dropLit?_eq_some.mp hd).symm
        rw [hfail (c :: cs) List.suffix_rfl (by simp)] at hpre
        cases hpre
    have hlen : (c :: cs).length + fuel = (cs.length + fuel) + 1 := by
      simp [List.length_cons, Nat.add_right_comm]
    rw [hlen, List.cons_append, subFieldFuel]
    simp only [hdl]
    rw [ih rest fuel (fun t ht htne =>
      hfail t (ht.trans (List.suffix_cons c cs)) htne)]
    rfl

/-- A label that contains `':'` but no newline cannot match anywhere inside
`tok' ++ '\n' :: rest` starting within the colon-free `tok'` or at its
closing newline. -/
theorem not_prefix_token_nl : ∀ (tok' lit rest : List Char),
    ':' ∈ lit → ':' ∉ tok' → '\n' ∉ lit →
    lit.isPrefixOf (tok' ++ '\n' :: rest) = false := by
  intro tok'
  induction tok' with
  | nil =>
    intro lit rest hcol _ hnl
    cases lit with
    | nil => simp at hcol
    | cons l0 lit2 =>
      have hne : (l0 == '\n') = false := by
        simp only [beq_eq_false_iff_ne, ne_eq]
        intro h
        exact hnl (h ▸ List.mem_cons_self l0 lit2)
      simp [List.isPrefixOf, hne]
  | cons t0 ts ih =>
    intro lit rest hcol hto hnl
    cases lit with
    | nil => simp at hcol
    | cons l0 lit2 =>
      rw [List.cons_append]
      by_cases hl0 : l0 = t0
      · have hl0c : l0 ≠ ':' := by
          intro h
          exact hto (by rw [← h, hl0] at *; exact hl0 ▸ List.mem_cons_self t0 ts)
        have hcol2 : ':' ∈ lit2 := by
          cases List.mem_cons.mp hcol with
          | inl h => exact absurd h.symm hl0c
          | inr h => exact h
        have hnl2 : '\n' ∉ lit2 := fun h => hnl (List.mem_cons_of_mem _ h)
        have hts : ':' ∉ ts := fun h => hto (List.mem_cons_of_mem _ h)
        simp [List.isPrefixOf, ih lit2 rest hcol2 hts hnl2]
      · have : (l0 == t0) = false := by
          simp only [beq_eq_false_iff_ne, ne_eq]
          exact hl0
        simp [List.isPrefixOf, this]

/-- Skip variant for a segment none of whose characters equals the label's
first character. -/
theorem subFieldFuel_skip_headNotMem (l0 : Char) (lit' repl seg rest : List Char)
    (fuel : Nat) (hmem : l0 ∉ seg) :
    subFieldFuel (l0 :: lit') repl (seg.length + fuel) (seg ++ rest) =
      seg ++ subFieldFuel (l0 :: lit') repl fuel rest := by
  apply subFieldFuel_skip
  intro t ht htne
  obtain ⟨t0, ts, rfl⟩ := List.exists_cons_of_ne_nil htne
  have ht0 : t0 ∈ seg := ht.subset (List.mem_cons_self t0 ts)
  have hne : (l0 == t0) = false := by
    simp only [beq_eq_false_iff_ne, ne_eq]
    intro h
    exact hmem (h ▸ ht0)
  rw [List.cons_append]
  simp [List.isPrefixOf, hne]

/-- Skip variant for a colon-free token followed by its newline, scanned
for a label that contains a colon and no newline. -/
theorem subFieldFuel_skip_token_nl (lit repl tok rest : List Char) (fuel : Nat)
    (hcol : ':' ∈ lit) (htokc : ':' ∉ tok) (hnl : '\n' ∉ lit) :
    subFieldFuel lit repl ((tok ++ ['\n']).length + fuel) ((tok ++ ['\n']) ++ rest) =
      (tok ++ ['\n']) ++ subFieldFuel lit repl fuel rest := by
  apply subFieldFuel_skip
  intro t ht htne
  obtain ⟨u, hu⟩ := ht
  have hl? : t.getLast? = some '\n' := by
    have h1 : (u ++ t).getLast? = t.getLast? :=
      List.getLast?_append_of_ne_nil u htne
    rw [hu, List.getLast?_concat] at h1
    exact h1.symm
  have hlast : t.getLast htne = '\n' := by
    have h3 := List.getLast?_eq_getLast t htne
    rw [hl?] at h3
    exact (Option.some.inj h3).symm
  have ht' : t = t.dropLast ++ ['\n'] := by
    conv_lhs => rw [← List.dropLast_append_getLast htne]
    rw [hlast]
  have htok' : t.dropLast <:+ tok := by
    refine ⟨u, ?_⟩
    have : u ++ (t.dropLast ++ ['\n']) = tok ++ ['\n'] := by rw [← ht', hu]
    rw [← List.append_assoc] at this
    exact List.append_cancel_right this
  have hts : ':' ∉ t.dropLast := fun h => htokc (htok'.subset h)
  rw [ht', List.append_assoc, List.singleton_append]
  exact not_prefix_token_nl t.dropLast lit rest hcol hts hnl

set_option maxHeartbeats 1000000 in
/-- C7: the hash-update tool rewrites only the `watches_hash` and
`last_verified` field values inside the marker block.  For a document whose
marker body has the canonical shape
`watches_hash: H\nlast_verified: D\n<watches section>` (with token values
and no stray field labels), the updated document is byte-identical outside
the two replaced tokens: the prefix before the block, the two field labels,
the entire watches section and the suffix after the block all reappear
unchanged. -/
theorem spec_C7 (lsStdout : Option String) (hashObject : String → Option String)
    (today content h d nh : String) (pre restw post : List Char)
    (hfind : findMarkerSplit content.toList =
      some (pre, "watches_hash: ".toList ++ h.toList ++
        ('\n' :: ("last_verified: ".toList ++ d.toList ++ ('\n' :: restw))), post))
    (hh1 : h.toList ≠ []) (hh2 : ∀ c ∈ h.toList, pyIsSpace c = false)
    (hd1 : d.toList ≠ []) (hd2 : ∀ c ∈ d.toList, pyIsSpace c = false)
    (hwne : (((parseWatchesLinesBreak false (pySplitlinesL
      ("watches_hash: ".toList ++ h.toList ++
        ('\n' :: ("last_verified: ".toList ++ d.toList ++ ('\n' :: restw)))))).map
      (fun l => String.mk l))).isEmpty = false)
    (hnh : compute_hash_update lsStdout hashObject
      (((parseWatchesLinesBreak false (pySplitlinesL
        ("watches_hash: ".toList ++ h.toList ++
          ('\n' :: ("last_verified: ".toList ++ d.toList ++ ('\n' :: restw)))))).map
        (fun l => String.mk l))) = some nh)
    (hocc1 : isInfixL "watches_hash:".toList
      ('\n' :: ("last_verified: ".toList ++ d.toList ++ ('\n' :: restw))) = false)
    (hocc2 : isInfixL "last_verified:".toList ('\n' :: restw) = false)
    (hnhc : ':' ∉ nh.toList) :
    update_main lsStdout hashObject today content =
      some (String.mk (pre ++
        ("watches_hash: ".toList ++ nh.toList ++
          ('\n' :: ("last_verified: ".toList ++ today.toList ++ ('\n' :: restw)))) ++
        post)) := by
  have hb1 : subField "watches_hash:".toList ("watches_hash: " ++ nh).toList
      ("watches_hash: ".toList ++ h.toList ++
        ('\n' :: ("last_verified: ".toList ++ d.toList ++ ('\n' :: restw)))) =
      ("watches_hash: " ++ nh).toList ++
        ('\n' :: ("last_verified: ".toList ++ d.toList ++ ('\n' :: restw))) := by
    rw [subField]
    rw [show ("watches_hash: ".toList ++ h.toList ++
        ('\n' :: ("last_verified: ".toList ++ d.toList ++ ('\n' :: restw)))).length =
      (("watches_hash: ".toList ++ h.toList ++
        ('\n' :: ("last_verified: ".toList ++ d.toList ++ ('\n' :: restw)))).length - 1) + 1
      from by simp]
    rw [show "watches_hash: ".toList ++ h.toList ++
        ('\n' :: ("last_verified: ".toList ++ d.toList ++ ('\n' :: restw))) =
      ('w' :: "atches_hash:".toList) ++ (' ' :: (h.toList ++
        ('\n' :: ("last_verified: ".toList ++ d.toList ++ ('\n' :: restw)))))
      from by simp]
    exact subFieldFuel_replace_head 'w' "atches_hash:".toList _ _ h.toList
      ('\n' :: ("last_verified: ".toList ++ d.toList ++ ('\n' :: restw)))
      hh1 hh2 ⟨'\n', _, rfl, by decide⟩ hocc1
  have hb2 : subField "last_verified:".toList ("last_verified: " ++ today).toList
      (("watches_hash: " ++ nh).toList ++
        ('\n' :: ("last_verified: ".toList ++ d.toList ++ ('\n' :: restw)))) =
      "watches_hash: ".toList ++ (nh.toList ++ ['\n']) ++
        (("last_verified: " ++ today).toList ++ ('\n' :: restw)) := by
    rw [subField]
    rw [show "last_verified:".toList = 'l' :: "ast_verified:".toList from rfl]
    rw [show (("watches_hash: " ++ nh).toList ++
        ('\n' :: ("last_verified: ".toList ++ d.toList ++ ('\n' :: restw)))) =
      "watches_hash: ".toList ++ ((nh.toList ++ ['\n']) ++
        ("last_verified: ".toList ++ (d.toList ++ ('\n' :: restw))))
      from by simp [String.data_append]]
    rw [show ("watches_hash: ".toList ++ ((nh.toList ++ ['\n']) ++
        ("last_verified: ".toList ++ (d.toList ++ ('\n' :: restw))))).length =
      "watches_hash: ".toList.length + ((nh.toList ++ ['\n']).length +
        ((("last_verified: ".toList ++ (d.toList ++ ('\n' :: restw))).length - 1) + 1))
      from by simp; omega]
    rw [subFieldFuel_skip_headNotMem 'l' "ast_verified:".toList _
      "watches_hash: ".toList _ _ (by decide)]
    rw [subFieldFuel_skip_token_nl ('l' :: "ast_verified:".toList)
      (("last_verified: " ++ today).toList) nh.toList
      ("last_verified: ".toList ++ (d.toList ++ ('\n' :: restw))) _
      (by decide) hnhc (by decide)]
    rw [show "last_verified: ".toList ++ (d.toList ++ ('\n' :: restw)) =
      ('l' :: "ast_verified:".toList) ++ (' ' :: (d.toList ++ ('\n' :: restw)))
      from rfl]
    rw [subFieldFuel_replace_head 'l' "ast_verified:".toList _ _ d.toList
      ('\n' :: restw) hd1 hd2 ⟨'\n', _, rfl, by decide⟩ hocc2]
    simp [List.append_assoc]
  simp only [update_main, hfind, hwne, Bool.false_eq_true, if_false, hnh, hb1, hb2]
  congr 1
  apply congrArg
  simp [String.data_append, List.append_assoc]

set_option maxRecDepth 100000 in
/-- Witness for C7 at a concrete document: only the two field values change
(`abc1234` to `0123456` and the date), every other byte survives. -/
theorem spec_C7_witness :
    update_main (some "a")
      (fun _ => some "0123456789abcdef0123456789abcdef01234567") "2025-06-07"
      "Doc\n<!-- freshness\nwatches_hash: abc1234\nlast_verified: 2024-01-01\nwatches:\n  - a\n-->\n" =
      some "Doc\n<!-- freshness\nwatches_hash: 0123456\nlast_verified: 2025-06-07\nwatches:\n  - a\n-->\n" := by
  have h := spec_C7 (some "a")
    (fun _ => some "0123456789abcdef0123456789abcdef01234567") "2025-06-07"
    "Doc\n<!-- freshness\nwatches_hash: abc1234\nlast_verified: 2024-01-01\nwatches:\n  - a\n-->\n"
    "abc1234" "2024-01-01" "0123456"
    "Doc\n<!-- freshness\n".toList "watches:\n  - a".toList "\n-->\n".toList
    (by decide) (by decide) (by decide) (by decide) (by decide) (by decide)
    (by decide) (by decide) (by decide) (by decide)
  rw [h]
  decide

/-- C6, counterexample: the round-trip fails on two inputs that meet the
claim's stated well-formedness (patterns free of newlines and edge
whitespace; tokens): an empty glob pattern is silently dropped by the
`watches` parser, and a hash token containing the text `last_verified:`
hijacks the date extraction. -/
theorem spec_C6_counterexample :
    parse_freshness_marker (build_marker "abc1234" "2024-01-01" [""]) ≠
      some ⟨"abc1234", some "2024-01-01", [""]⟩ ∧
    parse_freshness_marker (build_marker "xlast_verified:y" "2024-01-01" ["src"]) ≠
      some ⟨"xlast_verified:y", some "2024-01-01", ["src"]⟩ := by
  constructor
  · decide
  · decide

/-- `toList` distributes over string append. -/
theorem toList_append (a b : String) :
    (a ++ b).toList = a.toList ++ b.toList :=
  String.data_append a b

/-- Walking `pySplitlinesAux` through a break-free block up to a newline. -/
theorem pySplitlinesAux_through (A : List Char) : ∀ (cur B : List Char),
    (∀ c ∈ A, pyIsLineBreak c = false) →
    pySplitlinesAux cur (A ++ '\n' :: B) =
      (cur.reverse ++ A) :: pySplitlinesAux [] B := by
  induction A with
  | nil =>
    intro cur B _
    rw [List.nil_append, pySplitlinesAux.eq_def]
    simp only []
    rw [if_neg (by decide), if_pos (by decide)]
    simp
  | cons a A' ih =>
    intro cur B hA
    have ha := hA a (List.mem_cons_self a A')
    have har : (a == '\r') = false := by
      simp only [beq_eq_false_iff_ne, ne_eq]
      intro h
      rw [h] at ha
      exact absurd ha (by decide)
    rw [List.cons_append, pySplitlinesAux.eq_def]
    simp only [har, ha, Bool.false_eq_true, if_false]
    rw [ih (a :: cur) B (fun c hc => hA c (List.mem_cons_of_mem a hc))]
    simp

/-- `str.splitlines` splits off a break-free first line at its newline. -/
theorem pySplitlinesL_append_nl (A B : List Char)
    (hA : ∀ c ∈ A, pyIsLineBreak c = false) :
    pySplitlinesL (A ++ '\n' :: B) = A :: pySplitlinesL B := by
  rw [pySplitlinesL, pySplitlinesAux_through A [] B hA, List.reverse_nil,
    List.nil_append, pySplitlinesL]

/-- A final break-free non-empty line is returned whole. -/
theorem pySplitlinesAux_nobreak (A : List Char) : ∀ (cur : List Char),
    (∀ c ∈ A, pyIsLineBreak c = false) → (cur ≠ [] ∨ A ≠ []) →
    pySplitlinesAux cur A = [cur.reverse ++ A] := by
  induction A with
  | nil =>
    intro cur _ hne
    rw [pySplitlinesAux, if_neg (by simpa [List.isEmpty_iff] using hne.resolve_right (by simp))]
    simp
  | cons a A' ih =>
    intro cur hA _
    have ha := hA a (List.mem_cons_self a A')
    have har : (a == '\r') = false := by
      simp only [beq_eq_false_iff_ne, ne_eq]
      intro h
      rw [h] at ha
      exact absurd ha (by decide)
    rw [pySplitlinesAux.eq_def]
    simp only [har, ha, Bool.false_eq_true, if_false]
    rw [ih (a :: cur) (fun c hc => hA c (List.mem_cons_of_mem a hc)) (Or.inl (by simp))]
    simp

/-- Dropping whitespace does not lengthen a list. -/
theorem length_dropWhile_le (p : Char → Bool) (l : List Char) :
    (l.dropWhile p).length ≤ l.length := by
  induction l with
  | nil => simp
  | cons c cs ih =>
    rw [List.dropWhile_cons]
    by_cases h : p c = true
    · rw [if_pos h]
      exact Nat.le_succ_of_le ih
    · rw [if_neg h]

/-- `str.strip()` is the identity on a list whose two ends are not
whitespace. -/
theorem pyStripL_id (l : List Char)
    (hhd : ∀ c, l.head? = some c → pyIsSpace c = false)
    (hlast : ∀ c, l.getLast? = some c → pyIsSpace c = false) :
    pyStripL l = l := by
  cases l with
  | nil => rfl
  | cons a as =>
    rw [pyStripL, List.dropWhile_cons, if_neg (by simp [hhd a rfl])]
    have hrev : (a :: as).reverse.dropWhile pyIsSpace = (a :: as).reverse := by
      cases hr : (a :: as).reverse with
      | nil => simp at hr
      | cons b bs =>
        have hb : (a :: as).getLast? = some b := by
          rw [← List.head?_reverse, hr]
          rfl
        rw [List.dropWhile_cons, if_neg (by simp [hlast b hb])]
    rw [hrev, List.reverse_reverse]

/-- A list fixed by `str.strip()` has no whitespace at its head. -/
theorem head_not_ws_of_pyStripL_id (c : Char) (xs : List Char)
    (h : pyStripL (c :: xs) = c :: xs) : pyIsSpace c = false := by
  by_contra hc
  rw [Bool.not_eq_false] at hc
  have hlen : (pyStripL (c :: xs)).length ≤ xs.length := by
    rw [pyStripL, List.dropWhile_cons, if_pos hc]
    calc ((xs.dropWhile pyIsSpace).reverse.dropWhile pyIsSpace).reverse.length
        ≤ (xs.dropWhile pyIsSpace).reverse.length := by
          rw [List.length_reverse]
          exact length_dropWhile_le _ _
      _ ≤ xs.length := by
          rw [List.length_reverse]
          exact length_dropWhile_le _ _
  rw [h] at hlen
  simp at hlen

/-- A list fixed by `dropWhile` does not begin with a matching element. -/
theorem dropWhile_eq_self_head (p : Char → Bool) (b : Char) (bs : List Char)
    (h : (b :: bs).dropWhile p = b :: bs) : p b = false := by
  by_contra hb
  rw [Bool.not_eq_false] at hb
  rw [List.dropWhile_cons, if_pos hb] at h
  have := congrArg List.length h
  have hle := length_dropWhile_le p bs
  rw [this] at hle
  simp at hle

/-- A list fixed by `str.strip()` has no whitespace at its end. -/
theorem last_not_ws_of_pyStripL_id (l : List Char) (c : Char)
    (h : pyStripL l = l) (hl : l.getLast? = some c) :
    pyIsSpace c = false := by
  have hd1 : l.dropWhile pyIsSpace = l := by
    apply (List.dropWhile_suffix pyIsSpace).eq_of_length
    apply Nat.le_antisymm (length_dropWhile_le _ _)
    calc l.length = (pyStripL l).length := by rw [h]
      _ ≤ (l.dropWhile pyIsSpace).length := by
          rw [pyStripL, List.length_reverse]
          calc ((l.dropWhile pyIsSpace).reverse.dropWhile pyIsSpace).length
              ≤ (l.dropWhile pyIsSpace).reverse.length :=
                length_dropWhile_le _ _
            _ = (l.dropWhile pyIsSpace).length := List.length_reverse _
  have hd2 : l.reverse.dropWhile pyIsSpace = l.reverse := by
    have h2 : (l.reverse.dropWhile pyIsSpace).reverse = l := by
      conv_rhs => rw [← h]
      rw [pyStripL, hd1]
    have h3 := congrArg List.reverse h2
    rwa [List.reverse_reverse] at h3
  obtain ⟨bs, hrev⟩ : ∃ bs, l.reverse = c :: bs := by
    have hh : l.reverse.head? = some c := by rw [List.head?_reverse, hl]
    cases hr : l.reverse with
    | nil => rw [hr] at hh; cases hh
    | cons b bs =>
      rw [hr] at hh
      have hbc := Option.some.inj hh
      exact ⟨bs, by rw [← hbc]⟩
  rw [hrev] at hd2
  exact dropWhile_eq_self_head _ c bs hd2

/-- The closer test fails on anything whose first non-space character is
not `'-'`. -/
theorem closesHere_nonws (c : Char) (X : List Char)
    (hc : pyIsSpace c = false) (hne : c ≠ '-') :
    closesHere (c :: X) = false := by
  rw [closesHere, List.dropWhile_cons, if_neg (by simp [hc])]
  have : ('-' == c) = false := by
    simp only [beq_eq_false_iff_ne, ne_eq]
    exact fun h => hne h.symm
  simp [List.isPrefixOf, this]

/-- The closer test fails on a `watches` list item line. -/
theorem closesHere_globline (X : List Char) :
    closesHere (' ' :: ' ' :: '-' :: ' ' :: X) = false := by
  rw [closesHere, List.dropWhile_cons, if_pos (by decide),
    List.dropWhile_cons, if_pos (by decide), List.dropWhile_cons,
    if_neg (by decide)]
  simp [List.isPrefixOf]

/-- `scanClose` walks through a block none of whose newline positions
satisfies the closer test. -/
theorem scanClose_through (seg : List Char) : ∀ (acc rest : List Char),
    (∀ u v, seg = u ++ '\n' :: v → closesHere (v ++ rest) = false) →
    scanClose acc (seg ++ rest) = scanClose (seg.reverse ++ acc) rest := by
  induction seg with
  | nil => intro acc rest _; simp
  | cons c cs ih =>
    intro acc rest hseg
    rw [List.cons_append, scanClose]
    have hcond : (c == '\n' && closesHere (cs ++ rest)) = false := by
      by_cases hc : c = '\n'
      · rw [hseg [] cs (by rw [hc]; rfl)]
        simp
      · have : (c == '\n') = false := by
          simp only [beq_eq_false_iff_ne, ne_eq]
          exact hc
        simp [this]
    rw [hcond]
    simp only [Bool.false_eq_true, if_false]
    rw [ih (c :: acc) rest (fun u v hv => hseg (c :: u) v (by rw [hv]; rfl))]
    simp

/-- Splitting a newline-free block followed by a newline: the newline
position is either exactly the boundary or lies further right. -/
theorem nl_splits_append (A : List Char) : ∀ (B u v : List Char),
    '\n' ∉ A → A ++ '\n' :: B = u ++ '\n' :: v →
    (u = A ∧ v = B) ∨ ∃ w, u = A ++ '\n' :: w ∧ w ++ '\n' :: v = B := by
  induction A with
  | nil =>
    intro B u v _ h
    rw [List.nil_append] at h
    cases u with
    | nil =>
      rw [List.nil_append] at h
      exact Or.inl ⟨rfl, ((List.cons.inj h).2).symm⟩
    | cons x u' =>
      rw [List.cons_append] at h
      obtain ⟨hx, hB⟩ := List.cons.inj h
      exact Or.inr ⟨u', by simp [← hx], hB.symm⟩
  | cons a A' ih =>
    intro B u v hA h
    cases u with
    | nil =>
      simp only [List.cons_append, List.nil_append] at h
      obtain ⟨hx, _⟩ := List.cons.inj h
      exact absurd hx.symm (fun hh => hA (hh ▸ List.mem_cons_self a A'))
    | cons x u' =>
      simp only [List.cons_append] at h
      obtain ⟨hx, h'⟩ := List.cons.inj h
      cases ih B u' v (fun hh => hA (List.mem_cons_of_mem a hh)) h' with
      | inl hc =>
        left
        exact ⟨by rw [← hx, hc.1], hc.2⟩
      | inr hc =>
        obtain ⟨w, hw1, hw2⟩ := hc
        right
        exact ⟨w, by rw [← hx, hw1, List.cons_append], hw2⟩

/-- The rendered `watches` section always begins with a list item marker. -/
theorem joinNL_globLines_head (g : String) (ls : List String) :
    ∃ w, (joinNL (("  - " ++ g) :: ls)).toList =
      ' ' :: ' ' :: '-' :: ' ' :: w := by
  cases ls with
  | nil => exact ⟨g.toList, by simp [joinNL, String.data_append]⟩
  | cons l ls' =>
    refine ⟨g.toList ++ '\n' :: (joinNL (l :: ls')).toList, ?_⟩
    rw [show joinNL (("  - " ++ g) :: l :: ls') =
      ("  - " ++ g) ++ "\n" ++ joinNL (l :: ls') from rfl]
    simp [toList_append]

/-- Every newline inside the rendered `watches` section is followed by a
list item marker. -/
theorem globLines_nl_split (gs : List String) : ∀ (u v : List Char),
    (∀ g ∈ gs, ∀ c ∈ g.toList, pyIsLineBreak c = false) →
    (joinNL (gs.map (fun g => "  - " ++ g))).toList = u ++ '\n' :: v →
    ∃ w, v = ' ' :: ' ' :: '-' :: ' ' :: w := by
  induction gs with
  | nil =>
    intro u v _ h
    simp [joinNL] at h
  | cons g gs' ih =>
    intro u v hgs h
    cases gs' with
    | nil =>
      exfalso
      simp only [List.map_cons, List.map_nil, joinNL] at h
      have hmem : '\n' ∈ ("  - " ++ g).toList := by
        rw [h]
        simp
      rw [toList_append] at hmem
      rcases List.mem_append.mp hmem with h1 | h2
      · exact absurd h1 (by decide)
      · exact absurd (hgs g (by simp) '\n' h2) (by decide)
    | cons g2 gs'' =>
      simp only [List.map_cons] at h
      rw [show (joinNL (("  - " ++ g) :: ("  - " ++ g2) :: gs''.map (fun g => "  - " ++ g)))
          = ("  - " ++ g) ++ "\n" ++ joinNL (("  - " ++ g2) :: gs''.map (fun g => "  - " ++ g))
          from rfl] at h
      rw [show (("  - " ++ g) ++ "\n" ++ joinNL (("  - " ++ g2) :: gs''.map (fun g => "  - " ++ g))).toList
          = ("  - " ++ g).toList ++ '\n' ::
            (joinNL (("  - " ++ g2) :: gs''.map (fun g => "  - " ++ g))).toList
          from by simp [String.data_append]] at h
      have hAfree : '\n' ∉ ("  - " ++ g).toList := by
        rw [toList_append, List.mem_append]
        rintro (h1 | h2)
        · exact absurd h1 (by decide)
        · exact absurd (hgs g (by simp) '\n' h2) (by decide)
      cases nl_splits_append _ _ _ _ hAfree h with
      | inl hc =>
        obtain ⟨w, hw⟩ := joinNL_globLines_head g2 (gs''.map (fun g => "  - " ++ g))
        exact ⟨w, by rw [hc.2, hw]⟩
      | inr hc =>
        obtain ⟨w', _, hw2⟩ := hc
        exact ih w' v (fun g hg => hgs g (List.mem_cons_of_mem _ hg)) hw2.symm

/-- No newline position strictly inside the canonical marker body passes
the closer test: the lazy `(.*?)` therefore runs to the structural end of
the body. -/
theorem body_no_early_close (hS dS : String) (gs : List String)
    (hh2 : ∀ c ∈ hS.toList, pyIsSpace c = false)
    (hd2 : ∀ c ∈ dS.toList, pyIsSpace c = false)
    (hgs : ∀ g ∈ gs, ∀ c ∈ g.toList, pyIsLineBreak c = false)
    (hgne : gs ≠ [])
    (u v : List Char)
    (hsplit : ("watches_hash: ".toList ++ hS.toList) ++ '\n' ::
        (("last_verified: ".toList ++ dS.toList) ++ '\n' ::
          ("watches:".toList ++ '\n' ::
            (joinNL (gs.map (fun g => "  - " ++ g))).toList)) =
      u ++ '\n' :: v) :
    closesHere (v ++ '\n' :: '-' :: '-' :: '>' :: '\n' :: []) = false := by
  have hA1 : '\n' ∉ "watches_hash: ".toList ++ hS.toList := by
    rw [List.mem_append]
    rintro (h1 | h2)
    · exact absurd h1 (by decide)
    · exact absurd (hh2 '\n' h2) (by decide)
  cases nl_splits_append _ _ _ _ hA1 hsplit with
  | inl hc =>
    rw [hc.2,
      show ((("last_verified: ".toList ++ dS.toList) ++ '\n' ::
          ("watches:".toList ++ '\n' ::
            (joinNL (gs.map (fun g => "  - " ++ g))).toList)) ++
        '\n' :: '-' :: '-' :: '>' :: '\n' :: []) =
      'l' :: (("ast_verified: ".toList ++ dS.toList) ++ '\n' ::
          ("watches:".toList ++ '\n' ::
            (joinNL (gs.map (fun g => "  - " ++ g))).toList) ++
        '\n' :: '-' :: '-' :: '>' :: '\n' :: [] : List Char)
      from by simp]
    exact closesHere_nonws 'l' _ (by decide) (by decide)
  | inr hc =>
    obtain ⟨_, _, hw2⟩ := hc
    have hA2 : '\n' ∉ "last_verified: ".toList ++ dS.toList := by
      rw [List.mem_append]
      rintro (h1 | h2)
      · exact absurd h1 (by decide)
      · exact absurd (hd2 '\n' h2) (by decide)
    cases nl_splits_append _ _ _ _ hA2 hw2.symm with
    | inl hc2 =>
      rw [hc2.2,
        show (("watches:".toList ++ '\n' ::
            (joinNL (gs.map (fun g => "  - " ++ g))).toList) ++
          '\n' :: '-' :: '-' :: '>' :: '\n' :: []) =
        'w' :: ("atches:".toList ++ '\n' ::
            (joinNL (gs.map (fun g => "  - " ++ g))).toList ++
          '\n' :: '-' :: '-' :: '>' :: '\n' :: [] : List Char)
        from by simp]
      exact closesHere_nonws 'w' _ (by decide) (by decide)
    | inr hc2 =>
      obtain ⟨_, _, hw3⟩ := hc2
      have hA3 : '\n' ∉ "watches:".toList := by decide
      cases nl_splits_append _ _ _ _ hA3 hw3.symm with
      | inl hc3 =>
        cases gs with
        | nil => exact absurd rfl hgne
        | cons g gs' =>
          simp only [List.map_cons] at hc3
          obtain ⟨w, hw⟩ := joinNL_globLines_head g (gs'.map (fun g => "  - " ++ g))
          rw [hc3.2, hw, show ((' ' :: ' ' :: '-' :: ' ' :: w) ++
              '\n' :: '-' :: '-' :: '>' :: '\n' :: []) =
            ' ' :: ' ' :: '-' :: ' ' :: (w ++ '\n' :: '-' :: '-' :: '>' :: '\n' :: [])
            from by simp]
          exact closesHere_globline _
      | inr hc3 =>
        obtain ⟨w', _, hw4⟩ := hc3
        obtain ⟨w, hw⟩ := globLines_nl_split gs w' v hgs hw4.symm
        rw [hw, show ((' ' :: ' ' :: '-' :: ' ' :: w) ++
            '\n' :: '-' :: '-' :: '>' :: '\n' :: []) =
          ' ' :: ' ' :: '-' :: ' ' :: (w ++ '\n' :: '-' :: '-' :: '>' :: '\n' :: [])
          from by simp]
        exact closesHere_globline _

/-- Exact value of the lazy close scan on the canonical body. -/
theorem scanClose_body (hS dS : String) (gs : List String)
    (hh2 : ∀ c ∈ hS.toList, pyIsSpace c = false)
    (hd2 : ∀ c ∈ dS.toList, pyIsSpace c = false)
    (hgs : ∀ g ∈ gs, ∀ c ∈ g.toList, pyIsLineBreak c = false)
    (hgne : gs ≠ []) :
    scanClose []
      ((("watches_hash: ".toList ++ hS.toList) ++ '\n' ::
          (("last_verified: ".toList ++ dS.toList) ++ '\n' ::
            ("watches:".toList ++ '\n' ::
              (joinNL (gs.map (fun g => "  - " ++ g))).toList))) ++
        '\n' :: '-' :: '-' :: '>' :: '\n' :: []) =
      some ((("watches_hash: ".toList ++ hS.toList) ++ '\n' ::
          (("last_verified: ".toList ++ dS.toList) ++ '\n' ::
            ("watches:".toList ++ '\n' ::
              (joinNL (gs.map (fun g => "  - " ++ g))).toList))),
        '\n' :: '-' :: '-' :: '>' :: '\n' :: []) := by
  rw [scanClose_through _ [] _
    (fun u v hv => body_no_early_close hS dS gs hh2 hd2 hgs hgne u v hv)]
  rw [scanClose, if_pos (by decide)]
  simp

/-- Exact value of the anchored pattern match at the marker opener. -/
theorem tryMatchHere_marker_exact (c : Char) (rest body close : List Char)
    (hc : pyIsSpace c = false)
    (hscan : scanClose [] (c :: rest) = some (body, close)) :
    tryMatchHere ('<' :: '!' :: '-' :: '-' :: ' ' :: 'f' :: 'r' :: 'e' ::
      's' :: 'h' :: 'n' :: 'e' :: 's' :: 's' :: '\n' :: c :: rest) =
      some ("<!-- freshness\n".toList, body, close) := by
  have h1 : ('<' :: '!' :: '-' :: '-' :: ' ' :: 'f' :: 'r' :: 'e' :: 's' ::
      'h' :: 'n' :: 'e' :: 's' :: 's' :: '\n' :: c :: rest) =
      "<!--".toList ++ (' ' :: 'f' :: 'r' :: 'e' :: 's' :: 'h' :: 'n' ::
        'e' :: 's' :: 's' :: '\n' :: c :: rest) := rfl
  have h2 : (' ' :: 'f' :: 'r' :: 'e' :: 's' :: 'h' :: 'n' :: 'e' :: 's' ::
      's' :: '\n' :: c :: rest).dropWhile pyIsSpace =
      "freshness".toList ++ ('\n' :: c :: rest) := by
    rw [List.dropWhile_cons, if_pos (by decide), List.dropWhile_cons,
      if_neg (by decide)]
    rfl
  have h2t : (' ' :: 'f' :: 'r' :: 'e' :: 's' :: 'h' :: 'n' :: 'e' :: 's' ::
      's' :: '\n' :: c :: rest).takeWhile pyIsSpace = [' '] := by
    rw [List.takeWhile_cons, if_pos (by decide), List.takeWhile_cons,
      if_neg (by decide)]
  have h3 : ('\n' :: c :: rest).takeWhile pyIsSpace = ['\n'] := by
    rw [List.takeWhile_cons, if_pos (by decide), List.takeWhile_cons,
      if_neg (by simp [hc])]
  have h4 : ('\n' :: c :: rest).dropWhile pyIsSpace = c :: rest := by
    rw [List.dropWhile_cons, if_pos (by decide), List.dropWhile_cons,
      if_neg (by simp [hc])]
  simp only [tryMatchHere, h1, dropLit?_append, h2, h2t, h3, h4]
  rw [show nlSplitsDesc ['\n'] = [(['\n'], ([] : List Char))] from rfl]
  simp only [firstSome, List.nil_append, hscan]
  rfl

/-- Exact value of `re.search` on a freshly built marker. -/
theorem findMarkerSplit_build (hS dS : String) (gs : List String)
    (hh2 : ∀ c ∈ hS.toList, pyIsSpace c = false)
    (hd2 : ∀ c ∈ dS.toList, pyIsSpace c = false)
    (hgs : ∀ g ∈ gs, ∀ c ∈ g.toList, pyIsLineBreak c = false)
    (hgne : gs ≠ []) :
    findMarkerSplit (build_marker hS dS gs).toList =
      some ('\n' :: "<!-- freshness\n".toList,
        (("watches_hash: ".toList ++ hS.toList) ++ '\n' ::
          (("last_verified: ".toList ++ dS.toList) ++ '\n' ::
            ("watches:".toList ++ '\n' ::
              (joinNL (gs.map (fun g => "  - " ++ g))).toList))),
        '\n' :: '-' :: '-' :: '>' :: '\n' :: []) := by
  have hts : (build_marker hS dS gs).toList =
      '\n' :: '<' :: '!' :: '-' :: '-' :: ' ' :: 'f' :: 'r' :: 'e' :: 's' ::
        'h' :: 'n' :: 'e' :: 's' :: 's' :: '\n' :: 'w' ::
        (("atches_hash: ".toList ++ hS.toList) ++ '\n' ::
          (("last_verified: ".toList ++ dS.toList) ++ '\n' ::
            ("watches:".toList ++ '\n' ::
              (joinNL (gs.map (fun g => "  - " ++ g))).toList)) ++
          '\n' :: '-' :: '-' :: '>' :: '\n' :: []) := by
    simp [build_marker, toList_append]
  have hbody : ('w' :: (("atches_hash: ".toList ++ hS.toList) ++ '\n' ::
      (("last_verified: ".toList ++ dS.toList) ++ '\n' ::
        ("watches:".toList ++ '\n' ::
          (joinNL (gs.map (fun g => "  - " ++ g))).toList)) ++
      '\n' :: '-' :: '-' :: '>' :: '\n' :: [])) =
      ((("watches_hash: ".toList ++ hS.toList) ++ '\n' ::
        (("last_verified: ".toList ++ dS.toList) ++ '\n' ::
          ("watches:".toList ++ '\n' ::
            (joinNL (gs.map (fun g => "  - " ++ g))).toList))) ++
        '\n' :: '-' :: '-' :: '>' :: '\n' :: []) := by
    simp
  have hscan := scanClose_body hS dS gs hh2 hd2 hgs hgne
  rw [hts, findMarkerSplit]
  rw [show tryMatchHere ('\n' :: '<' :: '!' :: '-' :: '-' :: ' ' :: 'f' ::
      'r' :: 'e' :: 's' :: 'h' :: 'n' :: 'e' :: 's' :: 's' :: '\n' :: 'w' ::
      (("atches_hash: ".toList ++ hS.toList) ++ '\n' ::
        (("last_verified: ".toList ++ dS.toList) ++ '\n' ::
          ("watches:".toList ++ '\n' ::
            (joinNL (gs.map (fun g => "  - " ++ g))).toList)) ++
        '\n' :: '-' :: '-' :: '>' :: '\n' :: [])) = none from rfl]
  rw [findMarkerSplit]
  rw [tryMatchHere_marker_exact 'w' _ _ _ (by decide) (by rw [hbody]; exact hscan)]

theorem mk_toList (s : String) : String.mk s.toList = s := rfl

/-- Every `str.splitlines` boundary character is also `\s`-whitespace. -/
theorem pyIsLineBreak_false_of_not_space (c : Char) (h : pyIsSpace c = false) :
    pyIsLineBreak c = false := by
  rw [pyIsSpace] at h
  rw [pyIsLineBreak]
  simp only [Bool.or_eq_false_iff] at h ⊢
  tauto

/-- The token search skips positions where the label never matches. -/
theorem searchTokenAfter_skip (lit : List Char) : ∀ (seg rest : List Char),
    (∀ t, t <:+ seg → t ≠ [] → lit.isPrefixOf (t ++ rest) = false) →
    searchTokenAfter lit (seg ++ rest) = searchTokenAfter lit rest := by
  intro seg
  induction seg with
  | nil => intro rest _; rw [List.nil_append]
  | cons c cs ih =>
    intro rest hfail
    have hdl : dropLit? lit (c :: (cs ++ rest)) = none := by
      cases hd : dropLit? lit (c :: (cs ++ rest)) with
      | none => rfl
      | some r =>
        exfalso
        have hpre : lit.isPrefixOf ((c :: cs) ++ rest) = true := by
          rw [List.isPrefixOf_iff_prefix]
          refine ⟨r, ?_⟩
          rw [List.cons_append]
          exact (dropLit?_eq_some.mp hd).symm
        rw [hfail (c :: cs) List.suffix_rfl (by simp)] at hpre
        cases hpre
    rw [List.cons_append, searchTokenAfter]
    simp only [hdl]
    exact ih rest (fun t ht htne =>
      hfail t (ht.trans (List.suffix_cons c cs)) htne)

/-- Token-search skip for a segment not containing the label's head. -/
theorem searchTokenAfter_skip_headNotMem (l0 : Char) (lit' seg rest : List Char)
    (hmem : l0 ∉ seg) :
    searchTokenAfter (l0 :: lit') (seg ++ rest) =
      searchTokenAfter (l0 :: lit') rest := by
  apply searchTokenAfter_skip
  intro t ht htne
  obtain ⟨t0, ts, rfl⟩ := List.exists_cons_of_ne_nil htne
  have ht0 : t0 ∈ seg := ht.subset (List.mem_cons_self t0 ts)
  have hne : (l0 == t0) = false := by
    simp only [beq_eq_false_iff_ne, ne_eq]
    intro h
    exact hmem (h ▸ ht0)
  rw [List.cons_append]
  simp [List.isPrefixOf, hne]

/-- Token-search skip over a colon-free token and its newline. -/
theorem searchTokenAfter_skip_token_nl (lit tok rest : List Char)
    (hcol : ':' ∈ lit) (htokc : ':' ∉ tok) (hnl : '\n' ∉ lit) :
    searchTokenAfter lit ((tok ++ ['\n']) ++ rest) =
      searchTokenAfter lit rest := by
  apply searchTokenAfter_skip
  intro t ht htne
  obtain ⟨u, hu⟩ := ht
  have hl? : t.getLast? = some '\n' := by
    have h1 : (u ++ t).getLast? = t.getLast? :=
      List.getLast?_append_of_ne_nil u htne
    rw [hu, List.getLast?_concat] at h1
    exact h1.symm
  have hlast : t.getLast htne = '\n' := by
    have h3 := List.getLast?_eq_getLast t htne
    rw [hl?] at h3
    exact (Option.some.inj h3).symm
  have ht' : t = t.dropLast ++ ['\n'] := by
    conv_lhs => rw [← List.dropLast_append_getLast htne]
    rw [hlast]
  have htok' : t.dropLast <:+ tok := by
    refine ⟨u, ?_⟩
    have h5 : u ++ (t.dropLast ++ ['\n']) = tok ++ ['\n'] := by rw [← ht', hu]
    rw [← List.append_assoc] at h5
    exact List.append_cancel_right h5
  have hts : ':' ∉ t.dropLast := fun h => htokc (htok'.subset h)
  rw [ht', List.append_assoc, List.singleton_append]
  exact not_prefix_token_nl t.dropLast lit rest hcol hts hnl

/-- The token search finds the label at the head and returns the following
token. -/
theorem searchTokenAfter_found (l0 : Char) (lit' tok X : List Char)
    (htok : tok ≠ []) (htokw : ∀ c ∈ tok, pyIsSpace c = false)
    (hX : ∃ y ys, X = y :: ys ∧ pyIsSpace y = true) :
    searchTokenAfter (l0 :: lit') ((l0 :: lit') ++ (' ' :: (tok ++ X))) =
      some tok := by
  obtain ⟨y, ys, hXe, hy⟩ := hX
  obtain ⟨t0, ts, hte⟩ := List.exists_cons_of_ne_nil htok
  have hdw : (' ' :: (tok ++ X)).dropWhile pyIsSpace = tok ++ X := by
    rw [List.dropWhile_cons, if_pos (by decide)]
    rw [hte, List.cons_append, List.dropWhile_cons,
      if_neg (by simp [htokw t0 (by simp [hte])])]
  have htw : (tok ++ X).takeWhile (fun x => !pyIsSpace x) = tok := by
    rw [hXe]
    exact takeWhile_append_stop _ tok y ys
      (fun c hc => by simp [htokw c hc]) (by simp [hy])
  rw [List.cons_append, searchTokenAfter]
  rw [show (l0 :: (lit' ++ ' ' :: (tok ++ X))) =
    (l0 :: lit') ++ (' ' :: (tok ++ X)) from by simp]
  simp only [dropLit?_append, hdw, htw]
  rw [if_neg (by simp [hte])]

/-- The list-item prefix `"  - "` contains no line break. -/
theorem break_free_dashline (c : Char) (h : c ∈ "  - ".toList) :
    pyIsLineBreak c = false := by
  fin_cases h <;> decide

/-- Splitting the rendered `watches` section into its item lines. -/
theorem pySplitlinesL_globLines (gs : List String)
    (hgs : ∀ g ∈ gs, ∀ c ∈ g.toList, pyIsLineBreak c = false) (hne : gs ≠ []) :
    pySplitlinesL (joinNL (gs.map (fun g => "  - " ++ g))).toList =
      gs.map (fun g => ("  - " ++ g).toList) := by
  induction gs with
  | nil => cases hne rfl
  | cons g gs' ih =>
    cases gs' with
    | nil =>
      simp only [List.map_cons, List.map_nil]
      rw [show joinNL [("  - " ++ g)] = "  - " ++ g from rfl]
      rw [pySplitlinesL, pySplitlinesAux_nobreak _ []
        (fun c hc => by
          rw [toList_append] at hc
          rcases List.mem_append.mp hc with h1 | h2
          · exact break_free_dashline c h1
          · exact hgs g (by simp) c h2)
        (Or.inr (by rw [toList_append]; simp))]
      simp
    | cons g2 gs'' =>
      simp only [List.map_cons]
      rw [show joinNL (("  - " ++ g) :: ("  - " ++ g2) :: gs''.map (fun g => "  - " ++ g)) =
        ("  - " ++ g) ++ "\n" ++ joinNL (("  - " ++ g2) :: gs''.map (fun g => "  - " ++ g))
        from rfl]
      rw [show (("  - " ++ g) ++ "\n" ++
          joinNL (("  - " ++ g2) :: gs''.map (fun g => "  - " ++ g))).toList =
        ("  - " ++ g).toList ++ '\n' ::
          (joinNL (("  - " ++ g2) :: gs''.map (fun g => "  - " ++ g))).toList
        from by simp [toList_append]]
      rw [pySplitlinesL_append_nl _ _
        (fun c hc => by
          rw [toList_append] at hc
          rcases List.mem_append.mp hc with h1 | h2
          · exact break_free_dashline c h1
          · exact hgs g (by simp) c h2)]
      rw [show (joinNL (("  - " ++ g2) :: gs''.map (fun g => "  - " ++ g))).toList =
        (joinNL ((g2 :: gs'').map (fun g => "  - " ++ g))).toList from by simp]
      rw [ih (fun g hg => hgs g (List.mem_cons_of_mem _ hg)) (by simp)]
      simp

/-- `str.strip()` of a rendered `watches` item line. -/
theorem pyStripL_globline (g : String) (hg1 : g.toList ≠ [])
    (hg3 : pyStripL g.toList = g.toList) :
    pyStripL ("  - " ++ g).toList = '-' :: ' ' :: g.toList := by
  have hd : ("  - " ++ g).toList.dropWhile pyIsSpace = '-' :: ' ' :: g.toList := by
    rw [show ("  - " ++ g).toList = ' ' :: ' ' :: '-' :: ' ' :: g.toList
      from by simp [toList_append]]
    rw [List.dropWhile_cons, if_pos (by decide), List.dropWhile_cons,
      if_pos (by decide), List.dropWhile_cons, if_neg (by decide)]
  have hid : pyStripL ('-' :: ' ' :: g.toList) = '-' :: ' ' :: g.toList := by
    apply pyStripL_id
    · intro c hc
      rw [Option.some.inj hc.symm]
      decide
    · intro c hc
      rw [show ('-' :: ' ' :: g.toList) = ['-', ' '] ++ g.toList from rfl,
        List.getLast?_append_of_ne_nil _ hg1] at hc
      exact last_not_ws_of_pyStripL_id g.toList c hg3 hc
  rw [pyStripL, hd]
  rw [pyStripL] at hid
  rw [show ('-' :: ' ' :: g.toList).dropWhile pyIsSpace = '-' :: ' ' :: g.toList
    from by rw [List.dropWhile_cons, if_neg (by decide)]] at hid
  exact hid

/-- The `watches:` run collects exactly the rendered item lines. -/
theorem parseWatchesLines_globs (gs : List String)
    (hgs : ∀ g ∈ gs, g.toList ≠ [] ∧ pyStripL g.toList = g.toList) :
    parseWatchesLines true (gs.map (fun g => ("  - " ++ g).toList)) =
      gs.map (fun g => g.toList) := by
  induction gs with
  | nil => rfl
  | cons g gs' ih =>
    simp only [List.map_cons]
    rw [parseWatchesLines]
    obtain ⟨hg1, hg3⟩ := hgs g (by simp)
    rw [pyStripL_globline g hg1 hg3]
    have hc1 : ("watches:".toList.isPrefixOf ('-' :: ' ' :: g.toList)) = false := by
      rw [show "watches:".toList = 'w' :: "atches:".toList from rfl]
      simp [List.isPrefixOf]
    have hc2 : ("- ".toList.isPrefixOf ('-' :: ' ' :: g.toList)) = true := by
      rw [show "- ".toList = ['-', ' '] from rfl]
      simp [List.isPrefixOf]
    simp only [hc1, hc2, Bool.false_eq_true, if_false, if_true]
    rw [show ('-' :: ' ' :: g.toList).drop 2 = g.toList from rfl, hg3]
    rw [ih (fun g hg => hgs g (List.mem_cons_of_mem _ hg))]

theorem mem_of_getLast?_eq (l : List Char) (c : Char) (hne : l ≠ [])
    (h : l.getLast? = some c) : c ∈ l := by
  have h2 := List.getLast?_eq_getLast l hne
  rw [h] at h2
  rw [Option.some.inj h2]
  exact List.getLast_mem hne

/-- `str.strip()` fixes a rendered field line. -/
theorem pyStripL_field_line (lab : List Char) (l0 : Char) (labt : List Char)
    (tS : String) (hlab : lab = l0 :: labt) (hl0 : pyIsSpace l0 = false)
    (ht1 : tS.toList ≠ []) (ht2 : ∀ c ∈ tS.toList, pyIsSpace c = false) :
    pyStripL (lab ++ tS.toList) = lab ++ tS.toList := by
  apply pyStripL_id
  · intro c hc
    rw [hlab, List.cons_append] at hc
    rw [← Option.some.inj hc]
    exact hl0
  · intro c hc
    rw [List.getLast?_append_of_ne_nil _ ht1] at hc
    exact ht2 c (mem_of_getLast?_eq _ _ ht1 hc)

/-- The `watches` parser ignores the two field lines, opens the run at
`watches:`, and collects the item lines. -/
theorem parseWatchesLines_body (hS dS : String) (gs : List String)
    (hh1 : hS.toList ≠ []) (hh2 : ∀ c ∈ hS.toList, pyIsSpace c = false)
    (hd1 : dS.toList ≠ []) (hd2 : ∀ c ∈ dS.toList, pyIsSpace c = false)
    (hgs : ∀ g ∈ gs, g.toList ≠ [] ∧ pyStripL g.toList = g.toList) :
    parseWatchesLines false
      (("watches_hash: ".toList ++ hS.toList) ::
        ("last_verified: ".toList ++ dS.toList) ::
        "watches:".toList :: gs.map (fun g => ("  - " ++ g).toList)) =
      gs.map (fun g => g.toList) := by
  rw [parseWatchesLines,
    pyStripL_field_line _ 'w' "atches_hash: ".toList hS (by simp) (by decide) hh1 hh2]
  have hp1 : ("watches:".toList.isPrefixOf
      ("watches_hash: ".toList ++ hS.toList)) = false := by
    rw [show "watches:".toList = 'w' :: "atches:".toList from rfl,
      show "watches_hash: ".toList ++ hS.toList =
        'w' :: 'a' :: 't' :: 'c' :: 'h' :: 'e' :: 's' :: '_' ::
          ("hash: ".toList ++ hS.toList) from by simp]
    simp [List.isPrefixOf]
  simp only [hp1, Bool.false_eq_true, if_false]
  rw [parseWatchesLines,
    pyStripL_field_line _ 'l' "ast_verified: ".toList dS (by simp) (by decide) hd1 hd2]
  have hp2 : ("watches:".toList.isPrefixOf
      ("last_verified: ".toList ++ dS.toList)) = false := by
    rw [show "watches:".toList = 'w' :: "atches:".toList from rfl,
      show "last_verified: ".toList ++ dS.toList =
        'l' :: ("ast_verified: ".toList ++ dS.toList) from by simp]
    simp [List.isPrefixOf]
  simp only [hp2, Bool.false_eq_true, if_false]
  rw [parseWatchesLines,
    show pyStripL "watches:".toList = "watches:".toList from by decide]
  rw [if_pos (by decide)]
  exact parseWatchesLines_globs gs hgs

set_option maxHeartbeats 1000000 in
/-- C6 (amended): serialising a marker record with `build_marker` and
parsing it back with `parse_freshness_marker` returns the record unchanged
— hash, date and the ordered pattern list — provided the hash and date are
non-empty tokens free of whitespace and of `':'`, and every pattern is
non-empty, free of line-break characters, and fixed by `str.strip()`. -/
theorem spec_C6_amended (hS dS : String) (gs : List String)
    (hh1 : hS.toList ≠ []) (hh2 : ∀ c ∈ hS.toList, pyIsSpace c = false ∧ c ≠ ':')
    (hd1 : dS.toList ≠ []) (hd2 : ∀ c ∈ dS.toList, pyIsSpace c = false ∧ c ≠ ':')
    (hgne : gs ≠ [])
    (hgs : ∀ g ∈ gs, g.toList ≠ [] ∧ (∀ c ∈ g.toList, pyIsLineBreak c = false) ∧
      pyStripL g.toList = g.toList) :
    parse_freshness_marker (build_marker hS dS gs) = some ⟨hS, some dS, gs⟩ := by
  have hh2w : ∀ c ∈ hS.toList, pyIsSpace c = false := fun c hc => (hh2 c hc).1
  have hd2w : ∀ c ∈ dS.toList, pyIsSpace c = false := fun c hc => (hd2 c hc).1
  have hgsb : ∀ g ∈ gs, ∀ c ∈ g.toList, pyIsLineBreak c = false :=
    fun g hg => (hgs g hg).2.1
  rw [parse_freshness_marker, findMarkerSplit_build hS dS gs hh2w hd2w hgsb hgne]
  have hsh : searchTokenAfter "watches_hash:".toList
      ((("watches_hash: ".toList ++ hS.toList) ++ '\n' ::
        (("last_verified: ".toList ++ dS.toList) ++ '\n' ::
          ("watches:".toList ++ '\n' ::
            (joinNL (gs.map (fun g => "  - " ++ g))).toList)))) =
      some hS.toList := by
    rw [show (("watches_hash: ".toList ++ hS.toList) ++ '\n' ::
        (("last_verified: ".toList ++ dS.toList) ++ '\n' ::
          ("watches:".toList ++ '\n' ::
            (joinNL (gs.map (fun g => "  - " ++ g))).toList))) =
      ('w' :: "atches_hash:".toList) ++ (' ' :: (hS.toList ++
        ('\n' :: (("last_verified: ".toList ++ dS.toList) ++ '\n' ::
          ("watches:".toList ++ '\n' ::
            (joinNL (gs.map (fun g => "  - " ++ g))).toList)))))
      from by simp]
    exact searchTokenAfter_found 'w' _ _ _ hh1 hh2w ⟨'\n', _, rfl, by decide⟩
  have hdt : searchTokenAfter "last_verified:".toList
      ((("watches_hash: ".toList ++ hS.toList) ++ '\n' ::
        (("last_verified: ".toList ++ dS.toList) ++ '\n' ::
          ("watches:".toList ++ '\n' ::
            (joinNL (gs.map (fun g => "  - " ++ g))).toList)))) =
      some dS.toList := by
    rw [show (("watches_hash: ".toList ++ hS.toList) ++ '\n' ::
        (("last_verified: ".toList ++ dS.toList) ++ '\n' ::
          ("watches:".toList ++ '\n' ::
            (joinNL (gs.map (fun g => "  - " ++ g))).toList))) =
      "watches_hash: ".toList ++ ((hS.toList ++ ['\n']) ++
        (("last_verified: ".toList ++ dS.toList) ++ '\n' ::
          ("watches:".toList ++ '\n' ::
            (joinNL (gs.map (fun g => "  - " ++ g))).toList)))
      from by simp]
    rw [show "last_verified:".toList = 'l' :: "ast_verified:".toList from rfl]
    rw [searchTokenAfter_skip_headNotMem 'l' "ast_verified:".toList
      "watches_hash: ".toList _ (by decide)]
    rw [searchTokenAfter_skip_token_nl ('l' :: "ast_verified:".toList)
      hS.toList _ (by decide) (fun hmem => ((hh2 ':' hmem).2 rfl)) (by decide)]
    rw [show (("last_verified: ".toList ++ dS.toList) ++ '\n' ::
        ("watches:".toList ++ '\n' ::
          (joinNL (gs.map (fun g => "  - " ++ g))).toList)) =
      ('l' :: "ast_verified:".toList) ++ (' ' :: (dS.toList ++
        ('\n' :: ("watches:".toList ++ '\n' ::
          (joinNL (gs.map (fun g => "  - " ++ g))).toList))))
      from by simp]
    exact searchTokenAfter_found 'l' _ _ _ hd1 hd2w ⟨'\n', _, rfl, by decide⟩
  have hlines : pySplitlinesL
      ((("watches_hash: ".toList ++ hS.toList) ++ '\n' ::
        (("last_verified: ".toList ++ dS.toList) ++ '\n' ::
          ("watches:".toList ++ '\n' ::
            (joinNL (gs.map (fun g => "  - " ++ g))).toList)))) =
      ("watches_hash: ".toList ++ hS.toList) ::
        ("last_verified: ".toList ++ dS.toList) ::
        "watches:".toList :: gs.map (fun g => ("  - " ++ g).toList) := by
    rw [pySplitlinesL_append_nl _ _ (fun c hc => by
      rcases List.mem_append.mp hc with h1 | h2
      · exact (by decide : ∀ c ∈ "watches_hash: ".toList, pyIsLineBreak c = false) c h1
      · exact pyIsLineBreak_false_of_not_space c (hh2w c h2))]
    rw [show (("last_verified: ".toList ++ dS.toList) ++ '\n' ::
        ("watches:".toList ++ '\n' ::
          (joinNL (gs.map (fun g => "  - " ++ g))).toList)) =
      ("last_verified: ".toList ++ dS.toList) ++ '\n' ::
        ("watches:".toList ++ '\n' ::
          (joinNL (gs.map (fun g => "  - " ++ g))).toList) from rfl]
    rw [pySplitlinesL_append_nl _ _ (fun c hc => by
      rcases List.mem_append.mp hc with h1 | h2
      · exact (by decide : ∀ c ∈ "last_verified: ".toList, pyIsLineBreak c = false) c h1
      · exact pyIsLineBreak_false_of_not_space c (hd2w c h2))]
    rw [pySplitlinesL_append_nl _ _
      (by decide : ∀ c ∈ "watches:".toList, pyIsLineBreak c = false)]
    rw [pySplitlinesL_globLines gs hgsb hgne]
  simp only [hsh, hdt, hlines]
  rw [parseWatchesLines_body hS dS gs hh1 hh2w hd1 hd2w
    (fun g hg => ⟨(hgs g hg).1, (hgs g hg).2.2⟩)]
  simp only [Option.map_some', mk_toList, List.map_map]
  rw [show (gs.map ((fun l => String.mk l) ∘ (fun g => g.toList))) = gs.map id
    from List.map_congr_left (fun g _ => mk_toList g)]
  simp

set_option maxRecDepth 100000 in
/-- Witness for C6 (amended) at a concrete record. -/
theorem spec_C6_amended_witness :
    parse_freshness_marker (build_marker "abc1234" "2024-01-01" ["src/*", "docs/*.md"]) =
      some ⟨"abc1234", some "2024-01-01", ["src/*", "docs/*.md"]⟩ :=
  spec_C6_amended "abc1234" "2024-01-01" ["src/*", "docs/*.md"]
    (by decide) (by decide) (by decide) (by decide) (by decide) (by decide)

end Ctx
